import Mathlib

/-!
Shallow embedding of the sliding-sync v5 handler
(`src/api/client/sync/v5.rs`) and the typing registry
(`src/service/rooms/typing/mod.rs`) of the tuwunel server,
with theorems checking the natural-language specification against it.

Maps (`BTreeMap`) are embedded as association lists over `String` keys
with replace-on-insert semantics; the external monotonic counter source
(`globals.next_count`) is embedded as an explicit `Nat` counter that the
operations thread through.  Broadcast notifications and federation sends
are external side effects with no influence on the data reasoned about
here, so they are not part of the state.
-/

abbrev UserId := String
abbrev RoomId := String

/-- Lookup in an association list (embedding of `BTreeMap::get`). -/
def lookupA {α β : Type} [DecidableEq α] : List (α × β) → α → Option β
  | [], _ => none
  | (k, v) :: rest, key => if k = key then some v else lookupA rest key

/-- Insert/replace in an association list (embedding of `BTreeMap::insert`). -/
def insertA {α β : Type} [DecidableEq α] : List (α × β) → α → β → List (α × β)
  | [], key, val => [(key, val)]
  | (k, v) :: rest, key, val =>
      if k = key then (key, val) :: rest else (k, v) :: insertA rest key val

/-- Remove a key from an association list (embedding of `BTreeMap::remove`). -/
def eraseA {α β : Type} [DecidableEq α] : List (α × β) → α → List (α × β)
  | [], _ => []
  | (k, v) :: rest, key =>
      if k = key then eraseA rest key else (k, v) :: eraseA rest key

/-! ## Typing registry (`src/service/rooms/typing/mod.rs`) -/

/-- State of the typing `Service`: the `typing` table
(room → (user → timeout timestamp)), the `last_typing_update` table
(room → count of last change), and the value of the external monotonic
counter (`globals.next_count` yields `counter + 1` and advances it). -/
structure TypingService where
  typing : List (RoomId × List (UserId × Nat))
  last_update : List (RoomId × Nat)
  counter : Nat
deriving Repr, DecidableEq

/-- Embedding of `Service::typing_add`: upsert the user's timeout in the
room's typing table and record a fresh count in `last_typing_update`.
(The broadcast send and the federation EDU are external effects.) -/
def typing_add (s : TypingService) (user : UserId) (room : RoomId)
    (timeout : Nat) : TypingService :=
  let entries := (lookupA s.typing room).getD []
  { typing := insertA s.typing room (insertA entries user timeout)
    last_update := insertA s.last_update room (s.counter + 1)
    counter := s.counter + 1 }

/-- Embedding of `Service::typing_remove`: remove the user from the room's
typing table (creating an empty table for the room if absent, as
`entry(..).or_default()` does) and record a fresh count. -/
def typing_remove (s : TypingService) (user : UserId) (room : RoomId) :
    TypingService :=
  let entries := (lookupA s.typing room).getD []
  { typing := insertA s.typing room (eraseA entries user)
    last_update := insertA s.last_update room (s.counter + 1)
    counter := s.counter + 1 }

/-- Embedding of `Service::typings_maintain`: collect the users of the room
whose `timeout < current_timestamp`, and if there are any, remove them and
record a fresh count in `last_typing_update`. -/
def typings_maintain (s : TypingService) (room : RoomId) (now : Nat) :
    TypingService :=
  match lookupA s.typing room with
  | none => s
  | some entries =>
      let removable := (entries.filter (fun e => e.2 < now)).map (·.1)
      if removable.isEmpty then s
      else
        { typing := insertA s.typing room
            (removable.foldl (fun m u => eraseA m u) entries)
          last_update := insertA s.last_update room (s.counter + 1)
          counter := s.counter + 1 }

/-- Embedding of `Service::last_typing_update`: run `typings_maintain`
first, then return the room's entry of the `last_typing_update` table,
defaulting to `0` when the room has none. -/
def last_typing_update (s : TypingService) (room : RoomId) (now : Nat) :
    TypingService × Nat :=
  let s' := typings_maintain s room now
  (s', (lookupA s'.last_update room).getD 0)

/-- Embedding of `Service::typing_users_for_user`: the keys of the room's
typing table (empty when the room is absent), minus the users the
requester ignores.  `ignored u v` embeds `users.user_is_ignored(u, v)`. -/
def typing_users_for_user (s : TypingService) (room : RoomId)
    (sender_user : UserId) (ignored : UserId → UserId → Bool) :
    List UserId :=
  match lookupA s.typing room with
  | none => []
  | some entries =>
      (entries.map (·.1)).filter (fun u => ¬ ignored u sender_user)

/-! ## Connection cache and route prelude (`sync_events_v5_route`) -/

/-- The one protocol error of the route: `Err!(Request(UnknownPos(..)))`. -/
inductive SyncError where
  | unknownPos
deriving Repr, DecidableEq

/-- A stored sticky request body.  Its contents are opaque to the claims
settled here, so it is embedded as an uninterpreted string. -/
abbrev Body := String

/-- A flattened `(user_id, device_id, conn_id)` snake key
(`into_snake_key`). -/
abbrev SnakeKey := String

/-- Modelled from the spec: the Connection Cache of
`tuwunel_service::sync` (its implementation is not under `src/`).
Per spec section 4.1 it is a map from connection key to the sticky
request body; `exists` is key membership, `forget` removes the key's
entry, and `merge` overwrites stored fields with the fields present in
the new request.  The field-level merge function is left abstract and
passed in as `mergeB : Option Body → Body → Body` (first argument: the
cached body, if any). -/
abbrev ConnCache := List (SnakeKey × Body)

/-- Embedding of the prelude of `sync_events_v5_route` (v5.rs lines
81-105): parse `pos` into `globalsince` (done by the caller here, so
`globalsince : Nat`), return the `UnknownPos` error when
`globalsince != 0` and the snake key is not cached, forget the
connection when `globalsince == 0`, then merge the request into the
cache (`update_snake_sync_request_with_cache`), returning the updated
cache and the merged sticky body the rest of the route works from. -/
def sync_route_prelude (mergeB : Option Body → Body → Body)
    (cache : ConnCache) (key : SnakeKey) (globalsince : Nat)
    (req : Body) : Except SyncError (ConnCache × Body) :=
  if globalsince ≠ 0 ∧ (lookupA cache key).isNone then
    .error .unknownPos
  else
    let cache := if globalsince = 0 then eraseA cache key else cache
    let merged := mergeB (lookupA cache key) req
    .ok (insertA cache key merged, merged)

/-! ## To-device collector (`collect_to_device`) -/

/-- A queued to-device message: the count at which it was queued paired
with its (opaque) payload. -/
abbrev ToDeviceMsg := Nat × String

/-- Modelled from the spec: `users.remove_to_device_events(user, device,
watermark)` of `tuwunel_service::users` (not under `src/`) — "first
deletes queued messages up to the watermark", i.e. drops every queued
message whose position is at most the watermark. -/
def remove_to_device_events (queue : List ToDeviceMsg) (until_pos : Nat) :
    List ToDeviceMsg :=
  queue.filter (fun m => until_pos < m.1)

/-- Modelled from the spec: `users.get_to_device_events(user, device,
None, Some(next_batch))` of `tuwunel_service::users` (not under
`src/`) — "returns remaining queued messages up to the new global
cursor". -/
def get_to_device_events (queue : List ToDeviceMsg) (to_pos : Nat) :
    List ToDeviceMsg :=
  queue.filter (fun m => m.1 ≤ to_pos)

/-- Result of `collect_to_device`: the new continuation token
(`next_batch`) and the returned events. -/
structure ToDeviceResult where
  next_batch : Nat
  events : List ToDeviceMsg
deriving Repr, DecidableEq

/-- Embedding of `collect_to_device` (v5.rs lines 945-967): `None` when
the extension is disabled; otherwise first delete the queued messages up
to `globalsince`, then return the remaining messages up to `next_batch`
together with `next_batch` as the token. -/
def collect_to_device (enabled : Bool) (queue : List ToDeviceMsg)
    (globalsince next_batch : Nat) : Option ToDeviceResult :=
  if ¬ enabled then none
  else
    let queue := remove_to_device_events queue globalsince
    some { next_batch := next_batch
           events := get_to_device_events queue next_batch }

/-! ## Room selector: `handle_lists` and `fetch_subscriptions` -/

/-- A required-state key: `(event type, state key)` (`TypeStateKey`). -/
abbrev EvKey := String × String

/-- A to-do table entry (`TodoRooms` value): the required-state key set,
the timeline limit, and the since-watermark. -/
abbrev TodoEntry := List EvKey × Nat × Nat

/-- The to-do table, as a map from room id to its entry. -/
abbrev TodoTable := RoomId → Option TodoEntry

/-- `u64::MAX`, the initial watermark of a fresh to-do entry. -/
def u64max : Nat := 2 ^ 64 - 1

/-- Insert into a `BTreeSet` of required-state keys: a no-op when the key
is already present. -/
def insertSet (s : List EvKey) (k : EvKey) : List EvKey :=
  if k ∈ s then s else s ++ [k]

/-- `BTreeSet::extend` over required-state keys. -/
def extendSet (s : List EvKey) (ks : List EvKey) : List EvKey :=
  ks.foldl insertSet s

/-- Outcome of `rooms.state_accessor.get_room_type`: the room's type, a
not-found error, or any other error. -/
inductive RoomTypeRes where
  | found (t : String)
  | errNotFound
  | errOther
deriving Repr, DecidableEq

/-- `RoomTypeFilter::from(room_type.ok())`: the type when the lookup
succeeded, `Default` (here `none`) otherwise. -/
def roomTypeFilterOf : RoomTypeRes → Option String
  | .found t => some t
  | .errNotFound => none
  | .errOther => none

/-- Embedding of `filter_rooms` (v5.rs lines 1050-1083): drop rooms whose
type lookup failed with an error other than not-found; otherwise include
the room according to the (possibly negated) room-type filter. -/
def filter_rooms (room_type : RoomId → RoomTypeRes)
    (filter : List (Option String)) (negate : Bool)
    (rooms : List RoomId) : List RoomId :=
  rooms.filterMap fun room_id =>
    let rt := room_type room_id
    if rt = .errOther then none
    else
      let room_type_filter := roomTypeFilterOf rt
      let keep :=
        if negate then ¬ filter.contains room_type_filter
        else (filter.isEmpty ∨ filter.contains room_type_filter)
      if keep then some room_id else none

/-- The `filters` field of a sliding-sync list request. -/
structure FiltersReq where
  is_invite : Option Bool
  not_room_types : List (Option String)
deriving Repr, DecidableEq

/-- A sliding-sync list request (the fields `handle_lists` reads). -/
structure ListReq where
  ranges : List (Nat × Nat)
  filters : Option FiltersReq
  required_state : List EvKey
  timeline_limit : Nat
deriving Repr, DecidableEq

/-- A room subscription request (the fields `fetch_subscriptions` reads). -/
structure SubReq where
  required_state : List EvKey
  timeline_limit : Nat
deriving Repr, DecidableEq

/-- The previous known-rooms table: list name → room id → watermark. -/
abbrev KnownRooms := String → RoomId → Option Nat

/-- The active room set of one list (v5.rs lines 306-324): all / invited
/ joined rooms by the `is_invite` filter, then the room-type filter
(`filter_rooms` is called with `negate = true`), skipped when there are
no filters or the type list is empty. -/
def active_rooms_for (room_type : RoomId → RoomTypeRes)
    (all_rooms all_invited_rooms all_joined_rooms : List RoomId)
    (l : ListReq) : List RoomId :=
  let active :=
    match l.filters >>= (·.is_invite) with
    | none => all_rooms
    | some true => all_invited_rooms
    | some false => all_joined_rooms
  match l.filters.map (·.not_room_types) with
  | none => active
  | some fil =>
      if fil.isEmpty then active
      else filter_rooms room_type fil true active

/-- Rust `Ord::clamp`: `if x < lo { lo } else if x > hi { hi } else x`. -/
def rust_clamp (x lo hi : Nat) : Nat :=
  if x < lo then lo else if x > hi then hi else x

/-- Embedding of the range clamp and slice of `handle_lists` (v5.rs lines
330-337): `range.0` is forced to `0`, `range.1` is clamped between
`range.0` and the active-set length, and the rooms of the window are
`active_rooms[range.0..range.1]`. -/
def select_range (active : List RoomId) (r : Nat × Nat) : List RoomId :=
  let r0 : Nat := 0
  let r1 := rust_clamp r.2 r0 active.length
  (active.drop r0).take (r1 - r0)

/-- One merge into the to-do table (shared shape of v5.rs lines 347-372
and 250-271): `or_insert((BTreeSet::new(), 0, u64::MAX))`, then extend
the required-state set, take the max of the limits and the min of the
watermarks. -/
def merge_todo_room (todo : TodoTable) (room : RoomId)
    (req_state : List EvKey) (limit : Nat) (known : Nat) : TodoTable :=
  let e := (todo room).getD ([], 0, u64max)
  let e' : TodoEntry := (extendSet e.1 req_state, max e.2.1 limit, min e.2.2 known)
  fun r => if r = room then some e' else todo r

/-- The per-room merge of one list (v5.rs lines 347-372): the required
state keys of the list, its timeline limit capped at 100, and the known
watermark of that list for the room, defaulting to 0. -/
def handle_list_room (known : KnownRooms) (list_id : String) (l : ListReq)
    (todo : TodoTable) (room : RoomId) : TodoTable :=
  merge_todo_room todo room l.required_state
    (min l.timeline_limit 100) ((known list_id room).getD 0)

/-- One range of one list (v5.rs lines 330-372): merge every room of the
clamped window into the to-do table. -/
def handle_list_range_step (known : KnownRooms) (list_id : String)
    (l : ListReq) (active : List RoomId) (todo : TodoTable)
    (rg : Nat × Nat) : TodoTable :=
  (select_range active rg).foldl (handle_list_room known list_id l) todo

/-- The ranges loop of one list (v5.rs lines 330-373): clamp each range,
slice the active rooms, and merge each sliced room into the to-do table. -/
def handle_list_ranges (known : KnownRooms) (list_id : String)
    (l : ListReq) (active : List RoomId) (todo : TodoTable) : TodoTable :=
  l.ranges.foldl (handle_list_range_step known list_id l active) todo

/-- Embedding of `handle_lists` (v5.rs lines 291-392): for every list,
compute its active room set, process its ranges into the to-do table,
and report the active-set size as the list's `count`.  The
`update_snake_sync_known_rooms` call writes the covered rooms back to
the external connection cache and is not part of the data returned here. -/
def handle_lists_step (room_type : RoomId → RoomTypeRes)
    (all_rooms all_invited_rooms all_joined_rooms : List RoomId)
    (known : KnownRooms) (acc : TodoTable × (String → Option Nat))
    (p : String × ListReq) : TodoTable × (String → Option Nat) :=
  let active :=
    active_rooms_for room_type all_rooms all_invited_rooms all_joined_rooms p.2
  let td := handle_list_ranges known p.1 p.2 active acc.1
  (td, fun i => if i = p.1 then some active.length else acc.2 i)

/-- Embedding of the per-list fold of `handle_lists` over the request's
lists, starting from the given to-do table and an empty counts map. -/
def handle_lists (room_type : RoomId → RoomTypeRes)
    (all_rooms all_invited_rooms all_joined_rooms : List RoomId)
    (known : KnownRooms) (lists : List (String × ListReq))
    (todo0 : TodoTable) : TodoTable × (String → Option Nat) :=
  lists.foldl
    (handle_lists_step room_type all_rooms all_invited_rooms all_joined_rooms known)
    (todo0, fun _ => none)

/-- Embedding of `fetch_subscriptions` (v5.rs lines 231-288): for every
subscribed room that exists and is neither disabled nor banned, merge
its required state, its (uncapped) timeline limit, and the known
watermark of the reserved "subscriptions" list into the to-do table.
The `update_snake_sync_known_rooms` call is external, as above. -/
def fetch_subscriptions_step (room_exists is_disabled is_banned : RoomId → Bool)
    (known : KnownRooms) (td : TodoTable) (p : RoomId × SubReq) : TodoTable :=
  if ¬ room_exists p.1 ∨ is_disabled p.1 ∨ is_banned p.1 then td
  else
    merge_todo_room td p.1 p.2.required_state p.2.timeline_limit
      ((known "subscriptions" p.1).getD 0)

/-- Embedding of the subscriptions fold of `fetch_subscriptions` over the
request's room subscriptions. -/
def fetch_subscriptions (room_exists is_disabled is_banned : RoomId → Bool)
    (known : KnownRooms) (subs : List (RoomId × SubReq))
    (todo0 : TodoTable) : TodoTable :=
  subs.foldl (fetch_subscriptions_step room_exists is_disabled is_banned known) todo0

/-- The to-do table of one whole request, in route order (v5.rs lines
172-188): `handle_lists` starting from an empty table, then
`fetch_subscriptions`. -/
def request_todo (room_type : RoomId → RoomTypeRes)
    (room_exists is_disabled is_banned : RoomId → Bool)
    (all_rooms all_invited_rooms all_joined_rooms : List RoomId)
    (known : KnownRooms) (lists : List (String × ListReq))
    (subs : List (RoomId × SubReq)) : TodoTable :=
  let hl := handle_lists room_type all_rooms all_invited_rooms all_joined_rooms
    known lists (fun _ => none)
  fetch_subscriptions room_exists is_disabled is_banned known subs hl.1

/-- A single requirement contribution to a room's to-do entry: required
state keys, timeline limit, known watermark. -/
abbrev Touch := List EvKey × Nat × Nat

/-- Whether a list touches a room: the room lies in the window selected
by at least one of the list's ranges over its active room set. -/
def list_touches (active : List RoomId) (l : ListReq) (room : RoomId) : Bool :=
  l.ranges.any (fun rg => room ∈ select_range active rg)

/-- The contributions of all lists and subscriptions of a request to one
room, in processing order: for each list whose windows contain the room,
its required state, its limit capped at 100, and its known watermark (default 0);
then for each surviving subscription to that room, its required state,
uncapped limit, and the "subscriptions" watermark (default 0). -/
def touches_of (room_type : RoomId → RoomTypeRes)
    (room_exists is_disabled is_banned : RoomId → Bool)
    (all_rooms all_invited_rooms all_joined_rooms : List RoomId)
    (known : KnownRooms) (lists : List (String × ListReq))
    (subs : List (RoomId × SubReq)) (room : RoomId) : List Touch :=
  (lists.filter (fun p =>
      list_touches
        (active_rooms_for room_type all_rooms all_invited_rooms all_joined_rooms p.2)
        p.2 room)).map
    (fun p => (p.2.required_state, min p.2.timeline_limit 100, (known p.1 room).getD 0))
  ++ (subs.filter (fun p =>
        p.1 = room ∧ room_exists p.1 ∧ ¬ is_disabled p.1 ∧ ¬ is_banned p.1)).map
      (fun p => (p.2.required_state, p.2.timeline_limit, (known "subscriptions" room).getD 0))

/-- The entry-level merge underlying `merge_todo_room`. -/
def merge_entry (e : TodoEntry) (t : Touch) : TodoEntry :=
  (extendSet e.1 t.1, max e.2.1 t.2.1, min e.2.2 t.2.2)

/-! ## Room data aggregator (`process_rooms`) -/

/-- A `PduCount`: a normal or a backfilled timeline position. -/
inductive PduCount where
  | normal (c : Nat)
  | backfilled (c : Nat)
deriving Repr, DecidableEq

/-- The fields of a timeline PDU that `process_rooms` reads.  `payload`
stands for the formatted event (`Event::into_format`). -/
structure Pdu where
  origin_server_ts : Nat
  kind : String
  sender : UserId
  payload : String
deriving Repr, DecidableEq

/-- A `ruma::JsOption`: value, explicit null, or absent. -/
inductive JsOpt where
  | val (s : String)
  | null
  | absent
deriving Repr, DecidableEq

/-- `JsOption::from_option`. -/
def jsOptFromOption : Option String → JsOpt
  | some s => .val s
  | none => .absent

/-- The member event fields a hero is built from
(`state_accessor.get_member`). -/
structure MemberEvent where
  displayname : Option String
  avatar_url : Option String
deriving Repr, DecidableEq

/-- A response hero (`sync_events::v5::response::Hero`). -/
structure Hero where
  user_id : UserId
  name : Option String
  avatar : Option String
deriving Repr, DecidableEq, Inhabited

/-- A hero's display name, falling back to the user id
(`h.name.clone().unwrap_or_else(|| h.user_id.to_string())`). -/
def hero_name_or_id (h : Hero) : String :=
  h.name.getD h.user_id

/-- Embedding of the heroes collection (v5.rs lines 576-599): only when
the room has no explicit name, enumerate the room members, drop the
requesting user, resolve each member (lookup failures drop the member),
and keep at most 5. -/
def collect_heroes (room_name : Option String) (members : List UserId)
    (sender_user : UserId) (get_member : UserId → Option MemberEvent) :
    List Hero :=
  if room_name.isNone then
    (((members.filter (fun m => m ≠ sender_user)).filterMap
        (fun u => (get_member u).map
          (fun me => Hero.mk u me.displayname me.avatar_url))).take 5)
  else []

/-- Embedding of the hero-name fallback (v5.rs lines 601-627), the match
on `heroes.len().cmp(&1)` written as an if-chain: more than one hero →
all but the first joined by ", ", then " and ", then the first; exactly
one hero → that hero's name-or-id; no heroes → no fallback name. -/
def hero_name (heroes : List Hero) : Option String :=
  if 1 < heroes.length then
    let firsts := String.intercalate ", " ((heroes.drop 1).map hero_name_or_id)
    let last := hero_name_or_id heroes.headI
    some (firsts ++ " and " ++ last)
  else if heroes.length = 1 then
    some (hero_name_or_id heroes.headI)
  else
    none

/-- The heroes-avatar fallback (v5.rs lines 629-633): only with exactly
one hero. -/
def heroes_avatar_of (heroes : List Hero) : Option String :=
  if heroes.length = 1 then heroes.headI.avatar else none

/-- Everything the per-room loop body of `process_rooms` reads from the
services for one room, gathered as one record of collaborator outputs. -/
structure RoomEnv where
  /-- whether the room is among `all_invited_rooms` -/
  is_invited : Bool
  /-- `state_cache.invite_state(sender, room).ok()` -/
  invite_state : Option (List String)
  /-- `load_timeline(.., roomsince, next_batch, limit)`: `none` embeds the
  error case (the room is skipped), `some (pdus, limited)` the success -/
  timeline : Option (List (PduCount × Pdu) × Bool)
  /-- room-scoped `account_data.changes_since(room, sender, roomsince, ..)` -/
  ad_changes : List String
  /-- `read_receipt.last_privateread_update(sender, room)` -/
  last_privateread_update : Nat
  /-- `read_receipt.private_read_get(room, sender).ok()` -/
  private_read_event : Option String
  /-- `read_receipt.readreceipts_since(room, roomsince)` as (user, event) -/
  read_receipts : List (UserId × String)
  /-- `state_accessor.get_name(room).ok()` -/
  room_name : Option String
  /-- `state_cache.room_members(room)` -/
  members : List UserId
  /-- `state_accessor.get_member(room, user)` per member -/
  get_member : UserId → Option MemberEvent
  /-- `state_accessor.get_avatar(room)` after the url projection -/
  room_avatar : JsOpt
  /-- `state_accessor.room_state_get(room, ty, sk)` per required-state key -/
  state_get : EvKey → Option String
  /-- `rooms.user.highlight_count(sender, room)` -/
  highlight_count : Nat
  /-- `rooms.user.notification_count(sender, room)` -/
  notification_count : Nat
  /-- `state_cache.room_joined_count(room).unwrap_or(0)` -/
  joined_count : Nat
  /-- `state_cache.room_invited_count(room).unwrap_or(0)` -/
  invited_count : Nat

/-- A room of the response (`sync_events::v5::response::Room`). -/
structure RoomView where
  name : Option String
  avatar : JsOpt
  initial : Bool
  invite_state : Option (List String)
  highlight_count : Nat
  notification_count : Nat
  timeline : List String
  required_state : List String
  prev_batch : Option String
  limited : Bool
  joined_count : Nat
  invited_count : Nat
  bump_stamp : Option Nat
  heroes : List Hero

/-- The per-request extension accumulators `process_rooms` writes into:
the room-scoped account-data map and the receipts map of the response
extensions. -/
structure ExtAcc where
  ad_rooms : List (RoomId × List String)
  receipt_rooms : List (RoomId × List String)

/-- The receipts gathered for one room (v5.rs lines 458-490): the read
receipts since the watermark minus ignored users, plus the requester's
private read receipt when it moved past the watermark. -/
def room_receipts (env : RoomEnv) (ignored : UserId → UserId → Bool)
    (sender_user : UserId) (roomsince : Nat) : List String :=
  let receipts := (env.read_receipts.filter
    (fun p => ¬ ignored p.1 sender_user)).map (·.2)
  if env.last_privateread_update > roomsince then
    match env.private_read_event with
    | some e => receipts ++ [e]
    | none => receipts
  else receipts

/-- The `bump_stamp` fold (v5.rs lines 543-551): the latest
`origin_server_ts` among timeline events whose type is in the bump
allowlist; on ties the later event wins
(`timestamp.is_none_or(|time| time <= ts)`). -/
def bump_stamp_of (bump_types : List String)
    (timeline_pdus : List (PduCount × Pdu)) : Option Nat :=
  timeline_pdus.foldl
    (fun ts p =>
      if bump_types.contains p.2.kind &&
          ts.all (fun time => time ≤ p.2.origin_server_ts)
      then some p.2.origin_server_ts
      else ts)
    none

/-- The `prev_batch` computation (v5.rs lines 515-532): the count of the
first returned event (a backfilled count is an internal inconsistency,
coerced to "0"), else the watermark when it is non-zero, else absent. -/
def prev_batch_of (roomsince : Nat)
    (timeline_pdus : List (PduCount × Pdu)) : Option String :=
  match timeline_pdus.head?.map
    (fun p => match p.1 with
      | .backfilled _ => "0"
      | .normal c => toString c) with
  | some s => some s
  | none => if roomsince ≠ 0 then some (toString roomsince) else none

/-- The loop body of `process_rooms` (v5.rs lines 407-703) for one to-do
room: the invite shortcut or the timeline load, the account-data and
receipts extension writes, the skip of unchanged rooms, and the room
view assembly.  Returns the updated extension accumulators and the room
view, `none` when the room is skipped. -/
def process_one_room (ad_enabled : Bool) (ignored : UserId → UserId → Bool)
    (event_keep : Pdu → Bool) (bump_types : List String)
    (sender_user : UserId) (room : RoomId) (entry : TodoEntry)
    (env : RoomEnv) (acc : ExtAcc) : ExtAcc × Option RoomView :=
  let required_state_request := entry.1
  let roomsince := entry.2.2
  let loaded :=
    if env.is_invited then some (([] : List (PduCount × Pdu)), true)
    else env.timeline
  let invite_state := if env.is_invited then env.invite_state else none
  match loaded with
  | none => (acc, none)
  | some (timeline_pdus, limited) =>
    let acc :=
      if ad_enabled then
        { acc with ad_rooms := insertA acc.ad_rooms room env.ad_changes }
      else acc
    let receipts := room_receipts env ignored sender_user roomsince
    let receipt_size := receipts.length
    let acc :=
      if receipt_size > 0 then
        { acc with receipt_rooms := insertA acc.receipt_rooms room receipts }
      else acc
    if roomsince ≠ 0 ∧ timeline_pdus.isEmpty ∧
        ((lookupA acc.ad_rooms room).getD []).isEmpty ∧ receipt_size = 0 then
      (acc, none)
    else
      let prev_batch := prev_batch_of roomsince timeline_pdus
      let room_events :=
        (timeline_pdus.filter (fun p => event_keep p.2)).map (fun p => p.2.payload)
      let bump_stamp := bump_stamp_of bump_types timeline_pdus
      let required_state := required_state_request.filterMap env.state_get
      let room_name := env.room_name
      let heroes := collect_heroes room_name env.members sender_user env.get_member
      let hname := hero_name heroes
      let heroes_avatar := heroes_avatar_of heroes
      (acc, some
        { name := room_name.orElse (fun _ => hname)
          avatar :=
            if room_name.isSome then env.room_avatar
            else jsOptFromOption heroes_avatar
          initial := roomsince = 0
          invite_state := invite_state
          highlight_count := env.highlight_count
          notification_count := env.notification_count
          timeline := room_events
          required_state := required_state
          prev_batch := prev_batch
          limited := limited
          joined_count := env.joined_count
          invited_count := env.invited_count
          bump_stamp := bump_stamp
          heroes := heroes })

/-- One to-do room of the `process_rooms` fold: run the loop body and
insert the produced room view, if any, into the rooms map. -/
def process_rooms_step (ad_enabled : Bool) (ignored : UserId → UserId → Bool)
    (event_keep : Pdu → Bool) (bump_types : List String)
    (sender_user : UserId) (envs : RoomId → RoomEnv)
    (st : List (RoomId × RoomView) × ExtAcc) (p : RoomId × TodoEntry) :
    List (RoomId × RoomView) × ExtAcc :=
  let step := process_one_room ad_enabled ignored event_keep bump_types
    sender_user p.1 p.2 (envs p.1) st.2
  match step.2 with
  | none => (st.1, step.1)
  | some v => (insertA st.1 p.1 v, step.1)

/-- Embedding of `process_rooms` (v5.rs lines 394-706): fold the loop
body over the to-do rooms, inserting each produced room view into the
response's rooms map. -/
def process_rooms (ad_enabled : Bool) (ignored : UserId → UserId → Bool)
    (event_keep : Pdu → Bool) (bump_types : List String)
    (sender_user : UserId) (envs : RoomId → RoomEnv)
    (todo_list : List (RoomId × TodoEntry)) (acc0 : ExtAcc) :
    List (RoomId × RoomView) × ExtAcc :=
  todo_list.foldl
    (process_rooms_step ad_enabled ignored event_keep bump_types sender_user envs)
    ([], acc0)

/-! ## E2EE device-list collector (`collect_e2ee`) -/

/-- A membership state as far as `collect_e2ee` distinguishes them. -/
inductive MembershipSt where
  | join
  | leave
  | other
deriving Repr, DecidableEq

/-- The fields of a state PDU that the e2ee diff loop reads
(`timeline.get_pdu` followed by `get_content`).  `state_key` is the
parsed user id: `none` embeds `if let Some(Ok(user_id))` failing. -/
structure StatePdu where
  kind : String
  state_key : Option UserId
  membership : MembershipSt
deriving Repr, DecidableEq

/-- Insert into a `HashSet` of user ids: a no-op when already present. -/
def insertU (s : List UserId) (u : UserId) : List UserId :=
  if u ∈ s then s else s ++ [u]

/-- `HashSet::extend` over user ids. -/
def extendU (s : List UserId) (us : List UserId) : List UserId :=
  us.foldl insertU s

/-- The per-room collaborator outputs the e2ee loop body reads. -/
structure RoomE2EECtx where
  room_id : RoomId
  /-- `state.get_room_shortstatehash(room)`: `none` embeds the error
  ("Room has no state", the room is skipped) -/
  current_hash : Option Nat
  /-- `user.get_token_shortstatehash(room, globalsince).ok()` -/
  since_hash : Option Nat
  /-- whether `state_get(current, RoomEncryption, "")` succeeds -/
  current_encrypted : Bool
  /-- whether `state_get(since, RoomEncryption, "")` succeeds -/
  since_encrypted : Bool
  /-- `state_get_content(since, RoomMember, sender).ok()` membership -/
  since_sender_membership : Option MembershipSt
  /-- `state_full_ids(current)`: state key → event id -/
  current_state_ids : List (EvKey × Nat)
  /-- `state_full_ids(since)`: state key → event id -/
  since_state_ids : List (EvKey × Nat)
  /-- `timeline.get_pdu(id)` for the changed event ids; `none` embeds
  "Pdu in state not found" (that key is skipped) -/
  pdus : List (Nat × StatePdu)
  /-- `state_cache.room_members(room)` -/
  members : List UserId
  /-- `users.room_keys_changed(room, globalsince, None)` user ids -/
  room_keys_changed : List UserId

/-- One key of the state-diff loop of `collect_e2ee` (v5.rs lines
847-885): for a current state id that differs from the since snapshot
and resolves to a member event of someone other than the sender, a join
by a user not yet sharing an encrypted room is a device-list change,
and a leave is provisionally recorded as left. -/
def e2ee_diff_step (share : UserId → Option RoomId → Bool)
    (sender_user : UserId) (ctx : RoomE2EECtx)
    (a : List UserId × List UserId) (kv : EvKey × Nat) :
    List UserId × List UserId :=
  if lookupA ctx.since_state_ids kv.1 ≠ some kv.2 then
    match lookupA ctx.pdus kv.2 with
    | none => a
    | some pdu =>
      if pdu.kind = "m.room.member" then
        match pdu.state_key with
        | some user_id =>
          if user_id = sender_user then a
          else
            match pdu.membership with
            | .join =>
                if ¬ share user_id (some ctx.room_id) then
                  (insertU a.1 user_id, a.2)
                else a
            | .leave => (a.1, insertU a.2 user_id)
            | .other => a
        | none => a
      else a
  else a

/-- The state-diff inner loop of `collect_e2ee` (v5.rs lines 847-885),
folding the per-key step over the current state ids. -/
def e2ee_diff_loop (share : UserId → Option RoomId → Bool)
    (sender_user : UserId) (ctx : RoomE2EECtx)
    (acc : List UserId × List UserId) : List UserId × List UserId :=
  ctx.current_state_ids.foldl (e2ee_diff_step share sender_user ctx) acc

/-- The per-room body of the `collect_e2ee` loop (v5.rs lines 778-917),
acting on the accumulator `(device_list_changes, left_encrypted_users)`:
skip rooms without state, skip rooms whose state snapshot is unchanged,
diff encrypted rooms' state, hand every member the full re-key when the
sender just joined or the room just became encrypted, and finally merge
the room-scoped key-change source. -/
def e2ee_room_step (share : UserId → Option RoomId → Bool)
    (sender_user : UserId) (acc : List UserId × List UserId)
    (ctx : RoomE2EECtx) : List UserId × List UserId :=
  match ctx.current_hash with
  | none => acc
  | some cur =>
    let encrypted_room := ctx.current_encrypted
    match ctx.since_hash with
    | some since =>
      if since = cur then acc
      else
        let joined_since_last_sync :=
          match ctx.since_sender_membership with
          | none => true
          | some m => decide (m ≠ .join)
        let new_encrypted_room := encrypted_room && ! ctx.since_encrypted
        let acc :=
          if encrypted_room then
            let acc := e2ee_diff_loop share sender_user ctx acc
            if joined_since_last_sync || new_encrypted_room then
              (extendU acc.1
                ((ctx.members.filter (fun u => u ≠ sender_user)).filter
                  (fun u => ¬ share u (some ctx.room_id))),
               acc.2)
            else acc
          else acc
        (extendU acc.1 ctx.room_keys_changed, acc.2)
    | none => (extendU acc.1 ctx.room_keys_changed, acc.2)

/-- The device-list part of the e2ee extension response. -/
structure E2EEResult where
  changed : List UserId
  left : List UserId
deriving Repr, DecidableEq

/-- Embedding of `collect_e2ee` (v5.rs lines 749-943): empty when the
extension is disabled; otherwise seed the changes with the sender's own
key changes, run the per-room loop over the joined rooms, and report as
`left` exactly the recorded leavers who no longer share any encrypted
room with the sender (`share u none`). -/
def collect_e2ee (enabled : Bool) (share : UserId → Option RoomId → Bool)
    (sender_user : UserId) (keys_changed : List UserId)
    (ctxs : List RoomE2EECtx) : E2EEResult :=
  if ¬ enabled then { changed := [], left := [] }
  else
    let changes0 := extendU [] keys_changed
    let looped := ctxs.foldl (e2ee_room_step share sender_user) (changes0, [])
    { changed := looped.1
      left := looped.2.filter (fun u => ¬ share u none) }

/-- The per-key condition under which `e2ee_diff_step` records user `u`
as having left: the state id changed and resolves to a member event for
`u` (not the sender) with membership `leave`. -/
def kv_records_leave (ctx : RoomE2EECtx) (sender_user u : UserId)
    (kv : EvKey × Nat) : Prop :=
  lookupA ctx.since_state_ids kv.1 ≠ some kv.2 ∧
  ∃ pdu, lookupA ctx.pdus kv.2 = some pdu ∧
    pdu.kind = "m.room.member" ∧ pdu.state_key = some u ∧
    u ≠ sender_user ∧ pdu.membership = .leave

/-- The condition under which the e2ee loop records user `u` as having
left an encrypted room, read off the loop body: the room has state, its
snapshot changed since the watermark, it is currently encrypted, and
some changed state id resolves to a member event for `u` (not the
sender) with membership `leave`. -/
def room_records_leave (ctx : RoomE2EECtx) (sender_user u : UserId) : Prop :=
  ctx.current_hash.isSome ∧
  (∃ since, ctx.since_hash = some since ∧ ctx.current_hash ≠ some since) ∧
  ctx.current_encrypted = true ∧
  ∃ kv ∈ ctx.current_state_ids, kv_records_leave ctx sender_user u kv

/-! ## Typing collector (`collect_typing_events`) -/

/-- Embedding of `collect_typing_events` (v5.rs lines 969-1043): empty
when the typing extension is disabled; the effective scope is the
requested typing rooms (defaulting to the subscribed room ids) and the
requested typing lists (defaulting to the request's list names); when
both are empty the response is empty; otherwise every room of
`all_rooms` is queried through `typing_users_for_user` and a typing
event carrying the resulting user list is inserted for it.  (The
embedded `typing_users_for_user` is total, so the `Err` arm of the
query — log and omit the room — is unreachable here, as it is in the
source, whose `typing_users_for_user` only ever returns `Ok`.) -/
def collect_typing_events (s : TypingService) (sender_user : UserId)
    (ignored : UserId → UserId → Bool) (enabled : Bool)
    (typing_rooms : Option (List RoomId))
    (typing_lists : Option (List String))
    (sub_room_ids : List RoomId) (list_ids : List String)
    (all_rooms : List RoomId) : List (RoomId × List UserId) :=
  if ¬ enabled then []
  else
    let rooms := typing_rooms.getD sub_room_ids
    let lists := typing_lists.getD list_ids
    if rooms.isEmpty ∧ lists.isEmpty then []
    else
      all_rooms.foldl
        (fun acc room_id =>
          insertA acc room_id (typing_users_for_user s room_id sender_user ignored))
        []

/-- The cumulative effect of a sequence of to-do merges on one room's
entry: each touch merges into the current entry, a missing entry
starting from the initial `(BTreeSet::new(), 0, u64::MAX)`. -/
def apply_touches (v : Option TodoEntry) (ts : List Touch) : Option TodoEntry :=
  ts.foldl (fun v t => some (merge_entry (v.getD ([], 0, u64max)) t)) v

/-! ## Shared lemmas about the association-list embedding of maps -/

theorem lookupA_insertA {α β : Type} [DecidableEq α] (l : List (α × β))
    (k q : α) (v : β) :
    lookupA (insertA l k v) q = if k = q then some v else lookupA l q := by
  induction l with
  | nil => simp [insertA, lookupA]
  | cons p rest ih =>
    obtain ⟨k0, v0⟩ := p
    by_cases h : k0 = k
    · subst h
      simp only [insertA, if_pos rfl, lookupA]
      split_ifs with h1 <;> simp_all [lookupA]
    · simp only [insertA, if_neg h, lookupA, ih]
      split_ifs <;> simp_all

theorem mem_eraseA {α β : Type} [DecidableEq α] (l : List (α × β))
    (k : α) (p : α × β) :
    p ∈ eraseA l k ↔ p ∈ l ∧ p.1 ≠ k := by
  induction l with
  | nil => simp [eraseA]
  | cons q rest ih =>
    obtain ⟨k0, v0⟩ := q
    by_cases h : k0 = k <;>
      simp only [eraseA, if_pos, if_neg, h, List.mem_cons, ih] <;>
      aesop

theorem mem_foldl_eraseA {α β : Type} [DecidableEq α] (ks : List α)
    (l : List (α × β)) (p : α × β) :
    p ∈ ks.foldl (fun m u => eraseA m u) l ↔ p ∈ l ∧ p.1 ∉ ks := by
  induction ks generalizing l with
  | nil => simp
  | cons k rest ih =>
    simp only [List.foldl_cons, ih, mem_eraseA, List.mem_cons]
    constructor
    · rintro ⟨⟨hm, hne⟩, hnin⟩
      exact ⟨hm, by rintro (h | h) <;> [exact hne h; exact hnin h]⟩
    · rintro ⟨hm, hnin⟩
      exact ⟨⟨hm, fun h => hnin (Or.inl h)⟩, fun h => hnin (Or.inr h)⟩

theorem eraseA_insertA_self {α β : Type} [DecidableEq α] (l : List (α × β))
    (k : α) (v : β) :
    eraseA (insertA l k v) k = eraseA l k := by
  induction l with
  | nil => simp [insertA, eraseA]
  | cons p rest ih =>
    obtain ⟨k0, v0⟩ := p
    by_cases h : k0 = k
    · subst h
      simp [insertA, eraseA]
    · simp [insertA, eraseA, h, ih]

theorem eraseA_idem {α β : Type} [DecidableEq α] (l : List (α × β)) (k : α) :
    eraseA (eraseA l k) k = eraseA l k := by
  induction l with
  | nil => simp [eraseA]
  | cons p rest ih =>
    obtain ⟨k0, v0⟩ := p
    by_cases h : k0 = k
    · subst h ; simp [eraseA, ih]
    · simp [eraseA, h, ih]

/-! ## Claim theorems: typing registry -/

/-- C2: the claim says an entry whose timeout has elapsed is treated as
absent by every read path, in particular by `typing_users_for_user`,
even before a sweep runs.  The code does not consult any clock in
`typing_users_for_user`: with the single entry `(@alice, timeout 5)` and
wall-clock time 10 (so 5 < 10, the timeout has elapsed) the query still
returns `@alice`, contradicting the claim. -/
theorem C2_expired_typing_still_reported :
    (5 : Nat) < 10 ∧
    typing_users_for_user
        { typing := [("!room", [("@alice", 5)])], last_update := [], counter := 0 }
        "!room" "@bob" (fun _ _ => false) = ["@alice"] := by
  constructor
  · decide
  · rfl

/-- C10: `last_typing_update` of a room with no recorded typing mutation
returns the count 0 (not an error or an absence signal), and every call
runs the expiry sweep first, so in the state it returns no entry of the
room's typing table has an elapsed timeout. -/
theorem C10_last_typing_update_sweeps_and_defaults (s : TypingService)
    (room : RoomId) (now : Nat) :
    (lookupA s.typing room = none → lookupA s.last_update room = none →
      (last_typing_update s room now).2 = 0) ∧
    (∀ entries,
      lookupA (last_typing_update s room now).1.typing room = some entries →
      ∀ p ∈ entries, ¬ p.2 < now) := by
  constructor
  · intro h1 h2
    simp [last_typing_update, typings_maintain, h1, h2]
  · intro entries hent p hp
    intro hlt
    unfold last_typing_update typings_maintain at hent
    cases h : lookupA s.typing room with
    | none => simp [h] at hent
    | some entries0 =>
      simp only [h] at hent
      by_cases hr : ((entries0.filter (fun e => e.2 < now)).map (·.1)).isEmpty
      · simp only [hr, if_pos] at hent
        rw [h] at hent
        cases hent
        rw [List.isEmpty_iff, List.map_eq_nil_iff, List.filter_eq_nil_iff] at hr
        exact hr p hp (by simpa using hlt)
      · simp only [hr, if_neg, Bool.false_eq_true, not_false_iff] at hent
        rw [lookupA_insertA] at hent
        simp only [if_pos rfl] at hent
        cases hent
        rw [mem_foldl_eraseA] at hp
        exact hp.2 (List.mem_map.mpr ⟨p, List.mem_filter.mpr ⟨hp.1, by simpa using hlt⟩, rfl⟩)

/-- C10 witness: at a state with no record for room `!r`, the returned
count is 0; and at a state where `@u`'s timeout 3 has elapsed by time 5,
the state returned by `last_typing_update` keeps only `@v`, whose
timeout 9 has not elapsed. -/
theorem C10_witness :
    (last_typing_update { typing := [], last_update := [], counter := 7 } "!r" 5).2 = 0 ∧
    ∀ p ∈ [(("@v" : UserId), (9 : Nat))], ¬ p.2 < 5 :=
  ⟨(C10_last_typing_update_sweeps_and_defaults
      { typing := [], last_update := [], counter := 7 } "!r" 5).1 rfl rfl,
   (C10_last_typing_update_sweeps_and_defaults
      { typing := [("!r", [("@u", 3), ("@v", 9)])], last_update := [], counter := 0 }
      "!r" 5).2 [("@v", 9)] (by decide)⟩

/-! ## Claim theorems: route prelude -/

/-- C1: a request with a non-zero cursor for a snake key unknown to the
connection cache gets the distinguished `UnknownPos` error before the
sticky state is touched (the prelude returns the error and nothing else);
a request with cursor 0 never gets that error, and the connection's
prior sticky state is discarded first, so the outcome is the same
whatever body was cached for the key before. -/
theorem C1_unknown_pos_guard (mergeB : Option Body → Body → Body)
    (cache : ConnCache) (key : SnakeKey) (globalsince : Nat) (req : Body) :
    (globalsince ≠ 0 → lookupA cache key = none →
      sync_route_prelude mergeB cache key globalsince req = .error .unknownPos) ∧
    (globalsince = 0 →
      (∃ out, sync_route_prelude mergeB cache key globalsince req = .ok out) ∧
      ∀ prior,
        sync_route_prelude mergeB (insertA cache key prior) key globalsince req =
        sync_route_prelude mergeB (eraseA cache key) key globalsince req) := by
  constructor
  · intro hnz hnc
    simp [sync_route_prelude, hnz, hnc]
  · intro hz
    subst hz
    constructor
    · exact ⟨_, rfl⟩
    · intro prior
      simp [sync_route_prelude, eraseA_insertA_self, eraseA_idem]

/-- C1 witness: with an empty cache, cursor 1 for key `k` yields the
unknown-position error; with cursor 0, the request succeeds and a cached
prior body `x` for `k` leaves the outcome unchanged. -/
theorem C1_witness :
    sync_route_prelude (fun o b => (o.getD "") ++ b) [] "k" 1 "req" =
      .error .unknownPos ∧
    sync_route_prelude (fun o b => (o.getD "") ++ b)
        (insertA [("k", "old")] "k" "x") "k" 0 "req" =
      sync_route_prelude (fun o b => (o.getD "") ++ b)
        (eraseA [("k", "old")] "k") "k" 0 "req" :=
  ⟨(C1_unknown_pos_guard (fun o b => (o.getD "") ++ b) [] "k" 1 "req").1
      (by decide) rfl,
   ((C1_unknown_pos_guard (fun o b => (o.getD "") ++ b) [("k", "old")] "k" 0 "req").2
      rfl).2 "x"⟩

/-! ## Claim theorems: to-device -/

/-- C3: an enabled to-device sync at watermark `W1` with new cursor `W2`
first deletes the queued messages with positions up to `W1` and returns
exactly the remaining ones with positions up to `W2`, with `W2` as the
continuation token; consequently a message returned at watermark `W1`
(position in `(W1, W2]`) is never among the events of any later sync
whose watermark is `W2` or greater, whatever the queue contains then. -/
theorem C3_to_device_at_most_once (q : List ToDeviceMsg) (W1 W2 : Nat)
    (r : ToDeviceResult) (h : collect_to_device true q W1 W2 = some r) :
    (r.next_batch = W2 ∧
      ∀ e, e ∈ r.events ↔ e ∈ q ∧ W1 < e.1 ∧ e.1 ≤ W2) ∧
    (∀ q2 W W3 r2, W2 ≤ W → collect_to_device true q2 W W3 = some r2 →
      ∀ e ∈ r.events, e ∉ r2.events) := by
  simp only [collect_to_device, not_true, if_false, Option.some.injEq,
    Bool.not_true, Bool.false_eq_true] at h
  subst h
  refine ⟨⟨rfl, ?_⟩, ?_⟩
  · intro e
    simp only [get_to_device_events, remove_to_device_events,
      List.mem_filter, decide_eq_true_eq, and_assoc]
  · intro q2 W W3 r2 hW h2 e he hin
    simp only [collect_to_device, not_true, if_false, Option.some.injEq,
      Bool.not_true, Bool.false_eq_true] at h2
    subst h2
    simp only [get_to_device_events, remove_to_device_events,
      List.mem_filter, decide_eq_true_eq] at he hin
    omega

/-- C3 witness: syncing the queue `[(1,a),(3,b),(5,c)]` at watermark 1
with cursor 4 returns `(3,b)`; a later sync at watermark 4 over a queue
still containing `(3,b)` does not return it again. -/
theorem C3_witness :
    ((3 : Nat), "b") ∉
      ({ next_batch := 9, events := [((6 : Nat), "d")] } : ToDeviceResult).events :=
  (C3_to_device_at_most_once [(1, "a"), (3, "b"), (5, "c")] 1 4
      { next_batch := 4, events := [(3, "b")] } (by decide)).2
    [(3, "b"), (6, "d")] 4 9 { next_batch := 9, events := [(6, "d")] }
    (by decide) (by decide) (3, "b") (by decide)

/-! ## Claim theorems: hero naming -/

/-- C8: for a room without an explicit name and collected heroes `H`:
no heroes → no fallback name; one hero → that hero's display name or
user id; two or more heroes → the name-or-ids of `H[1:]` joined by ", ",
then " and ", then the name-or-id of `H[0]` — the first collected hero
is rendered last. -/
theorem C8_hero_name_first_rendered_last (h1 h2 : Hero) (t : List Hero) :
    hero_name [] = none ∧
    hero_name [h1] = some (hero_name_or_id h1) ∧
    hero_name (h1 :: h2 :: t) =
      some (String.intercalate ", " ((h2 :: t).map hero_name_or_id) ++
        " and " ++ hero_name_or_id h1) := by
  refine ⟨rfl, rfl, ?_⟩
  simp only [hero_name, List.length_cons]
  rw [if_pos (by omega)]
  simp [List.headI]

/-! ## Claim theorems: typing collector -/

theorem lookupA_foldl_insertA {α β : Type} [DecidableEq α] (f : α → β)
    (ks : List α) (acc : List (α × β)) (q : α) :
    lookupA (ks.foldl (fun a k => insertA a k (f k)) acc) q =
      if q ∈ ks then some (f q) else lookupA acc q := by
  induction ks generalizing acc with
  | nil => simp
  | cons k rest ih =>
    simp only [List.foldl_cons, ih, lookupA_insertA, List.mem_cons]
    split_ifs <;> simp_all

/-- C9 counterexample: with the typing extension enabled, a list `l` in
scope, one visible room `!r`, and an empty typing table, the collector
still emits a typing event for `!r` (with an empty user list) although
`!r` has no typing user — contradicting the claim that an event is
emitted only when the room has at least one typing user. -/
theorem C9_counterexample_room_without_typers_emitted :
    typing_users_for_user { typing := [], last_update := [], counter := 0 }
        "!r" "@me" (fun _ _ => false) = [] ∧
    lookupA
      (collect_typing_events { typing := [], last_update := [], counter := 0 }
        "@me" (fun _ _ => false) true none none [] ["l"] ["!r"]) "!r" =
      some [] := by
  exact ⟨rfl, rfl⟩

/-- C9 amended: with the typing extension enabled and a non-empty
effective rooms-or-lists scope, the collector iterates all rooms visible
to the requester and emits one typing event per visible room — whether
or not it has typing users — carrying the Typing Registry's user list
filtered by the requester's ignore list; rooms not visible are absent.
(The per-room query of the source always succeeds, so the failure arm
is unreachable.) -/
theorem C9_typing_collector_emits_every_visible_room
    (s : TypingService) (sender_user : UserId)
    (ignored : UserId → UserId → Bool)
    (typing_rooms : Option (List RoomId)) (typing_lists : Option (List String))
    (sub_room_ids : List RoomId) (list_ids : List String)
    (all_rooms : List RoomId)
    (hscope : ¬ ((typing_rooms.getD sub_room_ids).isEmpty ∧
      (typing_lists.getD list_ids).isEmpty)) :
    ∀ room,
      lookupA
        (collect_typing_events s sender_user ignored true typing_rooms
          typing_lists sub_room_ids list_ids all_rooms) room =
      if room ∈ all_rooms then
        some (typing_users_for_user s room sender_user ignored)
      else none := by
  intro room
  simp only [collect_typing_events, not_true, if_false, Bool.not_true,
    Bool.false_eq_true]
  rw [if_neg hscope]
  rw [lookupA_foldl_insertA (fun r => typing_users_for_user s r sender_user ignored)]
  split_ifs <;> simp [lookupA]

/-- C9 witness: one typing user `@u` in `!r`, scope given by list `l`,
visible rooms `!r`: the collector emits the event for `!r` with `[@u]`. -/
theorem C9_witness :
    lookupA
      (collect_typing_events
        { typing := [("!r", [("@u", 99)])], last_update := [], counter := 0 }
        "@me" (fun _ _ => false) true none none [] ["l"] ["!r"]) "!r" =
      (if "!r" ∈ ["!r"] then
        some (typing_users_for_user
          { typing := [("!r", [("@u", 99)])], last_update := [], counter := 0 }
          "!r" "@me" (fun _ _ => false))
      else none) :=
  C9_typing_collector_emits_every_visible_room
    { typing := [("!r", [("@u", 99)])], last_update := [], counter := 0 }
    "@me" (fun _ _ => false) none none [] ["l"] ["!r"] (by decide) "!r"

/-! ## Claim theorems: e2ee device-list diff -/

theorem mem_insertU (s : List UserId) (v u : UserId) :
    u ∈ insertU s v ↔ u ∈ s ∨ u = v := by
  unfold insertU
  split_ifs with h <;> simp_all

theorem mem_extendU (s us : List UserId) (u : UserId) :
    u ∈ extendU s us ↔ u ∈ s ∨ u ∈ us := by
  induction us generalizing s with
  | nil => simp [extendU]
  | cons v rest ih =>
    simp only [extendU, List.foldl_cons] at *
    rw [ih, mem_insertU, List.mem_cons]
    tauto

theorem left_e2ee_diff_step (share : UserId → Option RoomId → Bool)
    (sender_user : UserId) (ctx : RoomE2EECtx)
    (a : List UserId × List UserId) (kv : EvKey × Nat) (u : UserId) :
    u ∈ (e2ee_diff_step share sender_user ctx a kv).2 ↔
      u ∈ a.2 ∨ kv_records_leave ctx sender_user u kv := by
  unfold e2ee_diff_step kv_records_leave
  by_cases hd : lookupA ctx.since_state_ids kv.1 ≠ some kv.2
  · rw [if_pos hd]
    cases hp : lookupA ctx.pdus kv.2 with
    | none => simp [hp]
    | some pdu =>
      obtain ⟨pk, psk, pm⟩ := pdu
      simp only [hp]
      try dsimp only
      by_cases hk : pk = "m.room.member"
      · rw [if_pos hk]
        cases psk with
        | none => simp [hd]
        | some uid =>
          try dsimp only
          by_cases hu : uid = sender_user
          · rw [if_pos hu]
            constructor
            · exact Or.inl
            · rintro (h | ⟨-, pdu', hpe, -, hsk, hne, -⟩)
              · exact h
              · cases hpe
                exact absurd ((Option.some.inj hsk) ▸ hu) hne
          · rw [if_neg hu]
            cases pm with
            | join =>
                try dsimp only
                split_ifs with hshare <;>
                · constructor
                  · exact Or.inl
                  · rintro (h | ⟨-, pdu', hpe, -, -, -, hm'⟩)
                    · exact h
                    · cases hpe ; cases hm'
            | leave =>
                try dsimp only
                rw [mem_insertU]
                constructor
                · rintro (h | rfl)
                  · exact Or.inl h
                  · exact Or.inr ⟨hd, _, rfl, hk, rfl, hu, rfl⟩
                · rintro (h | ⟨-, pdu', hpe, -, hsk, -, -⟩)
                  · exact Or.inl h
                  · cases hpe
                    exact Or.inr (Option.some.inj hsk).symm
            | other =>
                try dsimp only
                constructor
                · exact Or.inl
                · rintro (h | ⟨-, pdu', hpe, -, -, -, hm'⟩)
                  · exact h
                  · cases hpe ; cases hm'
      · rw [if_neg hk]
        constructor
        · exact Or.inl
        · rintro (h | ⟨-, pdu', hpe, hk', -, -, -⟩)
          · exact h
          · cases hpe ; exact absurd hk' hk
  · rw [if_neg hd]
    rw [not_not] at hd
    simp [hd]

theorem left_e2ee_diff_fold (share : UserId → Option RoomId → Bool)
    (sender_user : UserId) (ctx : RoomE2EECtx) (l : List (EvKey × Nat))
    (acc : List UserId × List UserId) (u : UserId) :
    u ∈ (l.foldl (e2ee_diff_step share sender_user ctx) acc).2 ↔
      u ∈ acc.2 ∨ ∃ kv ∈ l, kv_records_leave ctx sender_user u kv := by
  induction l generalizing acc with
  | nil => simp
  | cons kv rest ih =>
    simp only [List.foldl_cons, ih, left_e2ee_diff_step, List.mem_cons]
    constructor
    · rintro ((h | h) | ⟨kv', hm, h⟩)
      · exact Or.inl h
      · exact Or.inr ⟨kv, Or.inl rfl, h⟩
      · exact Or.inr ⟨kv', Or.inr hm, h⟩
    · rintro (h | ⟨kv', (rfl | hm), h⟩)
      · exact Or.inl (Or.inl h)
      · exact Or.inl (Or.inr h)
      · exact Or.inr ⟨kv', hm, h⟩

theorem snd_ite_extendU (C : Prop) [Decidable C]
    (X : List UserId × List UserId) (Y : List UserId) :
    (if C then (extendU X.1 Y, X.2) else X).2 = X.2 := by
  split_ifs <;> rfl

theorem left_e2ee_diff_loop (share : UserId → Option RoomId → Bool)
    (sender_user : UserId) (ctx : RoomE2EECtx)
    (acc : List UserId × List UserId) (u : UserId) :
    u ∈ (e2ee_diff_loop share sender_user ctx acc).2 ↔
      u ∈ acc.2 ∨
        ∃ kv ∈ ctx.current_state_ids, kv_records_leave ctx sender_user u kv := by
  unfold e2ee_diff_loop
  exact left_e2ee_diff_fold share sender_user ctx ctx.current_state_ids acc u

theorem left_e2ee_room_step (share : UserId → Option RoomId → Bool)
    (sender_user : UserId) (acc : List UserId × List UserId)
    (ctx : RoomE2EECtx) (u : UserId) :
    u ∈ (e2ee_room_step share sender_user acc ctx).2 ↔
      u ∈ acc.2 ∨ room_records_leave ctx sender_user u := by
  unfold e2ee_room_step room_records_leave
  cases hc : ctx.current_hash with
  | none => simp [hc]
  | some cur =>
    try dsimp only
    cases hs : ctx.since_hash with
    | none => simp [hs]
    | some since =>
      try dsimp only
      by_cases he : since = cur
      · rw [if_pos he]
        constructor
        · exact Or.inl
        · rintro (h | ⟨-, ⟨since1, hs1, hneq⟩, -⟩)
          · exact h
          · cases hs1
            exact absurd (by rw [he]) hneq
      · rw [if_neg he]
        try dsimp only
        by_cases hen : ctx.current_encrypted
        · rw [if_pos hen, snd_ite_extendU, left_e2ee_diff_loop]
          constructor
          · rintro (h | ⟨kv, hkv, hrec⟩)
            · exact Or.inl h
            · refine Or.inr ⟨rfl, ⟨since, rfl, ?_⟩, hen, kv, hkv, hrec⟩
              intro hx
              exact he (Option.some.inj hx).symm
          · rintro (h | ⟨-, -, -, kv, hkv, hrec⟩)
            · exact Or.inl h
            · exact Or.inr ⟨kv, hkv, hrec⟩
        · rw [if_neg hen]
          constructor
          · exact Or.inl
          · rintro (h | ⟨-, -, henc, -⟩)
            · exact h
            · exact absurd henc hen

theorem left_e2ee_rooms_fold (share : UserId → Option RoomId → Bool)
    (sender_user : UserId) (ctxs : List RoomE2EECtx)
    (init : List UserId × List UserId) (u : UserId) :
    u ∈ (ctxs.foldl (e2ee_room_step share sender_user) init).2 ↔
      u ∈ init.2 ∨ ∃ ctx ∈ ctxs, room_records_leave ctx sender_user u := by
  induction ctxs generalizing init with
  | nil => simp
  | cons ctx rest ih =>
    simp only [List.foldl_cons, ih, left_e2ee_room_step, List.mem_cons]
    constructor
    · rintro ((h | h) | ⟨ctx', hm, h⟩)
      · exact Or.inl h
      · exact Or.inr ⟨ctx, Or.inl rfl, h⟩
      · exact Or.inr ⟨ctx', Or.inr hm, h⟩
    · rintro (h | ⟨ctx', (rfl | hm), h⟩)
      · exact Or.inl (Or.inl h)
      · exact Or.inl (Or.inr h)
      · exact Or.inr ⟨ctx', hm, h⟩

/-- C4: in an enabled e2ee sync, a user is reported in
`device_lists.left` exactly when some processed joined room recorded
them as leaving an encrypted room since the watermark
(`room_records_leave`) and, after every room has been processed, the
requester shares no encrypted room at all with them
(`share u none = false`); a recorded leaver who still shares an
encrypted room is dropped. -/
theorem C4_left_iff_no_shared_encrypted_room
    (share : UserId → Option RoomId → Bool) (sender_user : UserId)
    (keys_changed : List UserId) (ctxs : List RoomE2EECtx) (u : UserId) :
    u ∈ (collect_e2ee true share sender_user keys_changed ctxs).left ↔
      ((∃ ctx ∈ ctxs, room_records_leave ctx sender_user u) ∧
        share u none = false) := by
  unfold collect_e2ee
  simp only [not_true, if_false, Bool.not_true, Bool.false_eq_true]
  rw [List.mem_filter]
  rw [left_e2ee_rooms_fold]
  simp [Bool.not_eq_true]

/-! ## Claim theorems: minimality of the rooms map -/

theorem process_one_room_skips
    (ad_enabled : Bool) (ignored : UserId → UserId → Bool)
    (event_keep : Pdu → Bool) (bump_types : List String)
    (sender_user : UserId) (room : RoomId) (entry : TodoEntry)
    (env : RoomEnv) (acc : ExtAcc)
    (hms : entry.2.2 ≠ 0)
    (htl : ∀ tl ∈ env.timeline, tl.1 = [])
    (had : ad_enabled = true → env.ad_changes = [])
    (had2 : ad_enabled = false → (lookupA acc.ad_rooms room).getD [] = [])
    (hrc : room_receipts env ignored sender_user entry.2.2 = []) :
    (process_one_room ad_enabled ignored event_keep bump_types sender_user
      room entry env acc).2 = none := by
  cases ad_enabled with
  | true =>
    have had' := had rfl
    by_cases hi : env.is_invited
    · simp [process_one_room, hi, hrc, had', lookupA_insertA, hms]
    · cases ht : env.timeline with
      | none => simp [process_one_room, hi, ht]
      | some tl =>
        obtain ⟨pdus, lim⟩ := tl
        have hp : pdus = [] := by
          have := htl (pdus, lim) (by rw [ht] ; rfl)
          simpa using this
        subst hp
        simp [process_one_room, hi, ht, hrc, had', lookupA_insertA, hms]
  | false =>
    have had2' := had2 rfl
    by_cases hi : env.is_invited
    · simp [process_one_room, hi, hrc, had2', hms]
    · cases ht : env.timeline with
      | none => simp [process_one_room, hi, ht]
      | some tl =>
        obtain ⟨pdus, lim⟩ := tl
        have hp : pdus = [] := by
          have := htl (pdus, lim) (by rw [ht] ; rfl)
          simpa using this
        subst hp
        simp [process_one_room, hi, ht, hrc, had2', hms]

theorem process_one_room_ad_rooms_const
    (ignored : UserId → UserId → Bool)
    (event_keep : Pdu → Bool) (bump_types : List String)
    (sender_user : UserId) (room : RoomId) (entry : TodoEntry)
    (env : RoomEnv) (acc : ExtAcc) :
    (process_one_room false ignored event_keep bump_types sender_user
      room entry env acc).1.ad_rooms = acc.ad_rooms := by
  unfold process_one_room
  have hsplit2 : ∀ (C : Prop) (inst : Decidable C) (a b : ExtAcc),
      a.ad_rooms = acc.ad_rooms → b.ad_rooms = acc.ad_rooms →
      (@ite _ C inst a b).ad_rooms = acc.ad_rooms := by
    intro C inst a b ha hb
    split_ifs <;> assumption
  have hsplit : ∀ (C : Prop) (inst : Decidable C)
      (a b : ExtAcc × Option RoomView),
      a.1.ad_rooms = acc.ad_rooms → b.1.ad_rooms = acc.ad_rooms →
      (@ite _ C inst a b).1.ad_rooms = acc.ad_rooms := by
    intro C inst a b ha hb
    split_ifs <;> assumption
  by_cases hi : env.is_invited
  · simp only [hi]
    exact hsplit _ _ _ _ (hsplit2 _ _ _ _ rfl rfl) (hsplit2 _ _ _ _ rfl rfl)
  · simp only [hi]
    cases ht : env.timeline with
    | none => rfl
    | some tl =>
      obtain ⟨pdus, lim⟩ := tl
      exact hsplit _ _ _ _ (hsplit2 _ _ _ _ rfl rfl) (hsplit2 _ _ _ _ rfl rfl)

theorem process_rooms_step_ad_rooms_const
    (ignored : UserId → UserId → Bool)
    (event_keep : Pdu → Bool) (bump_types : List String)
    (sender_user : UserId) (envs : RoomId → RoomEnv)
    (st : List (RoomId × RoomView) × ExtAcc) (p : RoomId × TodoEntry) :
    (process_rooms_step false ignored event_keep bump_types sender_user envs
      st p).2.ad_rooms = st.2.ad_rooms := by
  simp only [process_rooms_step]
  cases hv : (process_one_room false ignored event_keep bump_types sender_user
      p.1 p.2 (envs p.1) st.2).2 with
  | none =>
      exact process_one_room_ad_rooms_const ignored event_keep bump_types
        sender_user p.1 p.2 (envs p.1) st.2
  | some v =>
      exact process_one_room_ad_rooms_const ignored event_keep bump_types
        sender_user p.1 p.2 (envs p.1) st.2

theorem process_rooms_fold_absent
    (ad_enabled : Bool) (ignored : UserId → UserId → Bool)
    (event_keep : Pdu → Bool) (bump_types : List String)
    (sender_user : UserId) (envs : RoomId → RoomEnv) (room : RoomId)
    (htl : ∀ tl ∈ (envs room).timeline, tl.1 = [])
    (had : ad_enabled = true → (envs room).ad_changes = []) :
    ∀ (todo_list : List (RoomId × TodoEntry))
      (st : List (RoomId × RoomView) × ExtAcc),
      lookupA st.1 room = none →
      (ad_enabled = false → (lookupA st.2.ad_rooms room).getD [] = []) →
      (∀ e, (room, e) ∈ todo_list → e.2.2 ≠ 0) →
      (∀ e, (room, e) ∈ todo_list →
        room_receipts (envs room) ignored sender_user e.2.2 = []) →
      lookupA (todo_list.foldl
        (process_rooms_step ad_enabled ignored event_keep bump_types
          sender_user envs) st).1 room = none := by
  intro todo_list
  induction todo_list with
  | nil =>
    intro st h1 _ _ _
    exact h1
  | cons p rest ih =>
    obtain ⟨r0, e0⟩ := p
    intro st h1 h2 hms hrc
    rw [List.foldl_cons]
    by_cases hp : r0 = room
    · subst hp
      have hskip : (process_one_room ad_enabled ignored event_keep bump_types
          sender_user r0 e0 (envs r0) st.2).2 = none :=
        process_one_room_skips ad_enabled ignored event_keep bump_types
          sender_user r0 e0 (envs r0) st.2
          (hms e0 (List.mem_cons_self _ _)) htl had h2
          (hrc e0 (List.mem_cons_self _ _))
      apply ih
      · simp only [process_rooms_step, hskip]
        exact h1
      · intro hfalse
        subst hfalse
        rw [process_rooms_step_ad_rooms_const]
        exact h2 rfl
      · exact fun e he => hms e (List.mem_cons_of_mem _ he)
      · exact fun e he => hrc e (List.mem_cons_of_mem _ he)
    · apply ih
      · simp only [process_rooms_step]
        cases hv : (process_one_room ad_enabled ignored event_keep bump_types
            sender_user r0 e0 (envs r0) st.2).2 with
        | none => exact h1
        | some v =>
          show lookupA (insertA st.1 r0 v) room = none
          rw [lookupA_insertA, if_neg hp]
          exact h1
      · intro hfalse
        subst hfalse
        rw [process_rooms_step_ad_rooms_const]
        exact h2 rfl
      · exact fun e he => hms e (List.mem_cons_of_mem _ he)
      · exact fun e he => hrc e (List.mem_cons_of_mem _ he)

/-- C5: a to-do room whose merged watermark is non-zero, whose timeline
delta is empty (or failed to load), whose room-scoped account-data delta
is empty or absent, and whose receipts — read receipts of non-ignored
users plus the requester's private read receipt — are empty, is entirely
absent from the response's rooms map. -/
theorem C5_unchanged_room_absent_from_rooms
    (ad_enabled : Bool) (ignored : UserId → UserId → Bool)
    (event_keep : Pdu → Bool) (bump_types : List String)
    (sender_user : UserId) (envs : RoomId → RoomEnv)
    (todo_list : List (RoomId × TodoEntry)) (acc0 : ExtAcc) (room : RoomId)
    (hms : ∀ e, (room, e) ∈ todo_list → e.2.2 ≠ 0)
    (htl : ∀ tl ∈ (envs room).timeline, tl.1 = [])
    (had : ad_enabled = true → (envs room).ad_changes = [])
    (had2 : ad_enabled = false → (lookupA acc0.ad_rooms room).getD [] = [])
    (hrc : ∀ e, (room, e) ∈ todo_list →
      room_receipts (envs room) ignored sender_user e.2.2 = []) :
    lookupA (process_rooms ad_enabled ignored event_keep bump_types
      sender_user envs todo_list acc0).1 room = none := by
  unfold process_rooms
  exact process_rooms_fold_absent ad_enabled ignored event_keep bump_types
    sender_user envs room htl had todo_list ([], acc0) rfl had2 hms hrc

/-- C5 witness: a room `!r` with watermark 7, an empty loaded timeline,
no account-data changes, and no receipts, is absent from the rooms map
produced by `process_rooms`. -/
theorem C5_witness :
    lookupA (process_rooms true (fun _ _ => false) (fun _ => true) [] "@me"
      (fun _ =>
        { is_invited := false, invite_state := none,
          timeline := some ([], false), ad_changes := [],
          last_privateread_update := 0, private_read_event := none,
          read_receipts := [], room_name := none, members := [],
          get_member := fun _ => none, room_avatar := .absent,
          state_get := fun _ => none, highlight_count := 0,
          notification_count := 0, joined_count := 0, invited_count := 0 })
      [("!r", ([], 10, 7))] { ad_rooms := [], receipt_rooms := [] }).1
      "!r" = none :=
  C5_unchanged_room_absent_from_rooms true (fun _ _ => false) (fun _ => true)
    [] "@me"
    (fun _ =>
      { is_invited := false, invite_state := none,
        timeline := some ([], false), ad_changes := [],
        last_privateread_update := 0, private_read_event := none,
        read_receipts := [], room_name := none, members := [],
        get_member := fun _ => none, room_avatar := .absent,
        state_get := fun _ => none, highlight_count := 0,
        notification_count := 0, joined_count := 0, invited_count := 0 })
    [("!r", ([], 10, 7))] { ad_rooms := [], receipt_rooms := [] } "!r"
    (by
      intro e he
      simp only [List.mem_singleton, Prod.mk.injEq, true_and] at he
      subst he
      decide)
    (by
      intro tl h
      rw [Option.mem_def] at h
      cases Option.some.inj h
      rfl)
    (fun _ => rfl)
    (fun h => nomatch h)
    (by
      intro e he
      simp only [List.mem_singleton, Prod.mk.injEq, true_and] at he
      subst he
      rfl)

/-! ## Claim theorems: range clamp and list count -/

theorem select_range_eq_take_min (active : List RoomId) (s e : Nat) :
    select_range active (s, e) = active.take (min e active.length) := by
  unfold select_range rust_clamp
  simp only [List.drop_zero, Nat.sub_zero]
  congr 1
  split_ifs <;> omega

theorem handle_lists_counts_frame (room_type : RoomId → RoomTypeRes)
    (all_rooms all_invited_rooms all_joined_rooms : List RoomId)
    (known : KnownRooms) :
    ∀ (lists : List (String × ListReq))
      (acc : TodoTable × (String → Option Nat)) (lid : String),
      lid ∉ lists.map Prod.fst →
      (lists.foldl (handle_lists_step room_type all_rooms all_invited_rooms
        all_joined_rooms known) acc).2 lid = acc.2 lid := by
  intro lists
  induction lists with
  | nil => intro acc lid _ ; rfl
  | cons p rest ih =>
    intro acc lid hnin
    rw [List.foldl_cons]
    rw [ih _ lid (fun h => hnin (List.mem_cons_of_mem _ h))]
    have hne : lid ≠ p.1 := fun h => hnin (h ▸ List.mem_cons_self _ _)
    simp only [handle_lists_step, if_neg hne]

theorem handle_lists_counts (room_type : RoomId → RoomTypeRes)
    (all_rooms all_invited_rooms all_joined_rooms : List RoomId)
    (known : KnownRooms) :
    ∀ (lists : List (String × ListReq))
      (acc : TodoTable × (String → Option Nat)) (lid : String) (l : ListReq),
      (lists.map Prod.fst).Nodup → (lid, l) ∈ lists →
      (lists.foldl (handle_lists_step room_type all_rooms all_invited_rooms
        all_joined_rooms known) acc).2 lid =
        some (active_rooms_for room_type all_rooms all_invited_rooms
          all_joined_rooms l).length := by
  intro lists
  induction lists with
  | nil => intro _ _ _ _ h ; exact absurd h (List.not_mem_nil _)
  | cons p rest ih =>
    intro acc lid l hnodup hmem
    rw [List.foldl_cons]
    rcases List.mem_cons.mp hmem with heq | hmem'
    · subst heq
      have hnin : lid ∉ rest.map Prod.fst := by
        have := hnodup
        simp only [List.map_cons, List.nodup_cons] at this
        exact this.1
      rw [handle_lists_counts_frame room_type all_rooms all_invited_rooms
        all_joined_rooms known rest _ lid hnin]
      simp [handle_lists_step]
    · exact ih _ lid l (by
        simp only [List.map_cons, List.nodup_cons] at hnodup
        exact hnodup.2) hmem'

/-- C7: for every list of the request, the reported `count` equals the
size of the list's active room set (not the window size), and for every
requested range `(s, e)` the window actually used is the initial segment
of the active set of length `min e N` — the floor is forced to 0 and the
ceiling clamped to the active-set length `N`. -/
theorem C7_range_clamped_and_count_is_active_size
    (room_type : RoomId → RoomTypeRes)
    (all_rooms all_invited_rooms all_joined_rooms : List RoomId)
    (known : KnownRooms) (lists : List (String × ListReq))
    (todo0 : TodoTable) (lid : String) (l : ListReq)
    (hnodup : (lists.map Prod.fst).Nodup) (hmem : (lid, l) ∈ lists) :
    (handle_lists room_type all_rooms all_invited_rooms all_joined_rooms
      known lists todo0).2 lid =
      some (active_rooms_for room_type all_rooms all_invited_rooms
        all_joined_rooms l).length ∧
    ∀ s e, select_range (active_rooms_for room_type all_rooms
        all_invited_rooms all_joined_rooms l) (s, e) =
      (active_rooms_for room_type all_rooms all_invited_rooms
        all_joined_rooms l).take
        (min e (active_rooms_for room_type all_rooms all_invited_rooms
          all_joined_rooms l).length) := by
  constructor
  · exact handle_lists_counts room_type all_rooms all_invited_rooms
      all_joined_rooms known lists _ lid l hnodup hmem
  · intro s e
    exact select_range_eq_take_min _ s e

/-- C7 witness: the spec's own example — range `(5, 1000)` against an
active set of 7 rooms selects the sub-range `[0, 7)` and reports
`count = 7`. -/
theorem C7_witness :
    (handle_lists (fun _ => .errNotFound)
      ["!a", "!b", "!c", "!d", "!e", "!f", "!g"] [] [] (fun _ _ => none)
      [("l", { ranges := [(5, 1000)], filters := none,
               required_state := [], timeline_limit := 1 })]
      (fun _ => none)).2 "l" =
      some (active_rooms_for (fun _ => .errNotFound)
        ["!a", "!b", "!c", "!d", "!e", "!f", "!g"] [] []
        { ranges := [(5, 1000)], filters := none,
          required_state := [], timeline_limit := 1 }).length ∧
    select_range (active_rooms_for (fun _ => .errNotFound)
        ["!a", "!b", "!c", "!d", "!e", "!f", "!g"] [] []
        { ranges := [(5, 1000)], filters := none,
          required_state := [], timeline_limit := 1 }) (5, 1000) =
      (active_rooms_for (fun _ => .errNotFound)
        ["!a", "!b", "!c", "!d", "!e", "!f", "!g"] [] []
        { ranges := [(5, 1000)], filters := none,
          required_state := [], timeline_limit := 1 }).take
        (min 1000 (active_rooms_for (fun _ => .errNotFound)
          ["!a", "!b", "!c", "!d", "!e", "!f", "!g"] [] []
          { ranges := [(5, 1000)], filters := none,
            required_state := [], timeline_limit := 1 }).length) :=
  ⟨(C7_range_clamped_and_count_is_active_size (fun _ => .errNotFound)
      ["!a", "!b", "!c", "!d", "!e", "!f", "!g"] [] [] (fun _ _ => none)
      [("l", { ranges := [(5, 1000)], filters := none,
               required_state := [], timeline_limit := 1 })]
      (fun _ => none) "l"
      { ranges := [(5, 1000)], filters := none,
        required_state := [], timeline_limit := 1 }
      (by decide) (by simp)).1,
   ((C7_range_clamped_and_count_is_active_size (fun _ => .errNotFound)
      ["!a", "!b", "!c", "!d", "!e", "!f", "!g"] [] [] (fun _ _ => none)
      [("l", { ranges := [(5, 1000)], filters := none,
               required_state := [], timeline_limit := 1 })]
      (fun _ => none) "l"
      { ranges := [(5, 1000)], filters := none,
        required_state := [], timeline_limit := 1 }
      (by decide) (by simp)).2) 5 1000⟩

/-! ## Claim theorems: the to-do merge -/

theorem C6_counterexample_subscription_limit_uncapped :
    (∃ entry,
      request_todo (fun _ => .errNotFound) (fun _ => true) (fun _ => false)
        (fun _ => false) [] [] [] (fun _ _ => none) []
        [("!r", { required_state := [], timeline_limit := 500 })] "!r" =
        some entry ∧ entry.2.1 = 500) ∧
    ¬ (500 : Nat) ≤ 100 := by
  constructor
  · exact ⟨([], 500, 0), rfl, rfl⟩
  · decide

theorem mem_insertSet (s : List EvKey) (k j : EvKey) :
    j ∈ insertSet s k ↔ j ∈ s ∨ j = k := by
  unfold insertSet
  split_ifs with h <;> simp_all

theorem mem_extendSet (s ks : List EvKey) (j : EvKey) :
    j ∈ extendSet s ks ↔ j ∈ s ∨ j ∈ ks := by
  induction ks generalizing s with
  | nil => simp [extendSet]
  | cons k rest ih =>
    simp only [extendSet, List.foldl_cons] at *
    rw [ih, mem_insertSet, List.mem_cons]
    tauto

theorem insertSet_of_mem (s : List EvKey) (k : EvKey) (h : k ∈ s) :
    insertSet s k = s := by
  simp [insertSet, h]

theorem extendSet_eq_of_subset (ks : List EvKey) :
    ∀ (s : List EvKey), (∀ k ∈ ks, k ∈ s) → extendSet s ks = s := by
  induction ks with
  | nil => intro s _ ; rfl
  | cons k rest ih =>
    intro s hsub
    show extendSet (insertSet s k) rest = s
    rw [insertSet_of_mem s k (hsub k (List.mem_cons_self _ _))]
    exact ih s (fun j hj => hsub j (List.mem_cons_of_mem _ hj))

theorem extendSet_idem (s ks : List EvKey) :
    extendSet (extendSet s ks) ks = extendSet s ks :=
  extendSet_eq_of_subset ks _
    (fun k hk => (mem_extendSet s ks k).mpr (Or.inr hk))

theorem merge_entry_idem (e : TodoEntry) (t : Touch) :
    merge_entry (merge_entry e t) t = merge_entry e t := by
  unfold merge_entry
  refine Prod.ext ?_ (Prod.ext ?_ ?_) <;> dsimp only
  · exact extendSet_idem e.1 t.1
  · rw [max_assoc, max_self]
  · rw [min_assoc, min_self]

theorem merge_todo_room_at (td : TodoTable) (room : RoomId)
    (rs : List EvKey) (lim kn : Nat) (r : RoomId) :
    merge_todo_room td room rs lim kn r =
      if r = room then
        some (merge_entry ((td room).getD ([], 0, u64max)) (rs, lim, kn))
      else td r := rfl

theorem handle_list_room_at (known : KnownRooms) (lid : String)
    (l : ListReq) (td : TodoTable) (room r : RoomId) :
    handle_list_room known lid l td room r =
      if r = room then
        some (merge_entry ((td room).getD ([], 0, u64max))
          (l.required_state, min l.timeline_limit 100, (known lid room).getD 0))
      else td r := rfl

theorem rooms_loop_at (known : KnownRooms) (lid : String) (l : ListReq) :
    ∀ (rooms : List RoomId) (td : TodoTable) (room : RoomId),
    (rooms.foldl (handle_list_room known lid l) td) room =
      if room ∈ rooms then
        some (merge_entry ((td room).getD ([], 0, u64max))
          (l.required_state, min l.timeline_limit 100, (known lid room).getD 0))
      else td room := by
  intro rooms
  induction rooms with
  | nil => intro td room ; simp
  | cons r0 rest ih =>
    intro td room
    rw [List.foldl_cons, ih]
    rw [handle_list_room_at known lid l td r0 room]
    by_cases h0 : room = r0
    · subst h0
      by_cases hr : room ∈ rest <;>
        simp [hr, merge_entry_idem]
    · by_cases hr : room ∈ rest <;> simp [hr, h0]

theorem ranges_loop_at (known : KnownRooms) (lid : String) (l : ListReq)
    (active : List RoomId) :
    ∀ (ranges : List (Nat × Nat)) (td : TodoTable) (room : RoomId),
    (ranges.foldl (handle_list_range_step known lid l active) td) room =
      if ranges.any (fun rg => room ∈ select_range active rg) then
        some (merge_entry ((td room).getD ([], 0, u64max))
          (l.required_state, min l.timeline_limit 100, (known lid room).getD 0))
      else td room := by
  intro ranges
  induction ranges with
  | nil => intro td room ; simp
  | cons rg rest ih =>
    intro td room
    rw [List.foldl_cons, ih]
    rw [show handle_list_range_step known lid l active td rg =
      (select_range active rg).foldl (handle_list_room known lid l) td from rfl]
    rw [rooms_loop_at]
    by_cases h0 : room ∈ select_range active rg
    · by_cases hr : rest.any (fun rg => room ∈ select_range active rg) <;>
        simp [h0, hr, merge_entry_idem]
    · by_cases hr : rest.any (fun rg => room ∈ select_range active rg) <;>
        simp [h0, hr]

theorem apply_touches_cons (v : Option TodoEntry) (t : Touch) (ts : List Touch) :
    apply_touches v (t :: ts) =
      apply_touches (some (merge_entry (v.getD ([], 0, u64max)) t)) ts := rfl

theorem apply_touches_append (v : Option TodoEntry) (a b : List Touch) :
    apply_touches v (a ++ b) = apply_touches (apply_touches v a) b :=
  List.foldl_append _ _ _ _

theorem lists_fold_todo_at (room_type : RoomId → RoomTypeRes)
    (all_rooms all_invited_rooms all_joined_rooms : List RoomId)
    (known : KnownRooms) :
    ∀ (lists : List (String × ListReq))
      (acc : TodoTable × (String → Option Nat)) (room : RoomId),
    ((lists.foldl (handle_lists_step room_type all_rooms all_invited_rooms
        all_joined_rooms known) acc).1) room =
      apply_touches (acc.1 room)
        ((lists.filter (fun p =>
            list_touches (active_rooms_for room_type all_rooms
              all_invited_rooms all_joined_rooms p.2) p.2 room)).map
          (fun p => (p.2.required_state, min p.2.timeline_limit 100,
            (known p.1 room).getD 0))) := by
  intro lists
  induction lists with
  | nil => intro acc room ; rfl
  | cons p rest ih =>
    intro acc room
    rw [List.foldl_cons, ih]
    have hstep : (handle_lists_step room_type all_rooms all_invited_rooms
        all_joined_rooms known acc p).1 room =
        if list_touches (active_rooms_for room_type all_rooms
            all_invited_rooms all_joined_rooms p.2) p.2 room then
          some (merge_entry ((acc.1 room).getD ([], 0, u64max))
            (p.2.required_state, min p.2.timeline_limit 100,
              (known p.1 room).getD 0))
        else acc.1 room := by
      show (handle_list_ranges known p.1 p.2 (active_rooms_for room_type
          all_rooms all_invited_rooms all_joined_rooms p.2) acc.1) room = _
      unfold handle_list_ranges list_touches
      exact ranges_loop_at known p.1 p.2 _ p.2.ranges acc.1 room
    rw [hstep]
    by_cases ht : list_touches (active_rooms_for room_type all_rooms
        all_invited_rooms all_joined_rooms p.2) p.2 room
    · rw [if_pos ht, List.filter_cons_of_pos (by simpa using ht), List.map_cons,
        apply_touches_cons]
    · rw [if_neg ht, List.filter_cons_of_neg (by simpa using ht)]

theorem subs_fold_todo_at (room_exists is_disabled is_banned : RoomId → Bool)
    (known : KnownRooms) :
    ∀ (subs : List (RoomId × SubReq)) (td : TodoTable) (room : RoomId),
    (subs.foldl (fetch_subscriptions_step room_exists is_disabled is_banned
        known) td) room =
      apply_touches (td room)
        ((subs.filter (fun p => p.1 = room ∧ room_exists p.1 ∧
            ¬ is_disabled p.1 ∧ ¬ is_banned p.1)).map
          (fun p => (p.2.required_state, p.2.timeline_limit,
            (known "subscriptions" room).getD 0))) := by
  intro subs
  induction subs with
  | nil => intro td room ; rfl
  | cons p rest ih =>
    intro td room
    rw [List.foldl_cons, ih]
    by_cases hskip : ¬ room_exists p.1 = true ∨ is_disabled p.1 = true ∨
        is_banned p.1 = true
    · rw [show fetch_subscriptions_step room_exists is_disabled is_banned
          known td p = td from by
        unfold fetch_subscriptions_step ; rw [if_pos hskip]]
      rw [List.filter_cons_of_neg (by
        simp only [decide_eq_true_eq, Bool.not_eq_true]
        rintro ⟨-, he, hd, hb⟩
        rcases hskip with h | h | h
        · exact h he
        · simp [hd] at h
        · simp [hb] at h)]
    · rw [show fetch_subscriptions_step room_exists is_disabled is_banned
          known td p = merge_todo_room td p.1 p.2.required_state
            p.2.timeline_limit ((known "subscriptions" p.1).getD 0) from by
        unfold fetch_subscriptions_step ; rw [if_neg hskip]]
      push_neg at hskip
      have hd : is_disabled p.1 = false := by
        simpa using hskip.2.1
      have hb : is_banned p.1 = false := by
        simpa using hskip.2.2
      by_cases hp : p.1 = room
      · rw [List.filter_cons_of_pos (by
          simp only [decide_eq_true_eq, Bool.not_eq_true]
          exact ⟨hp, hskip.1, hd, hb⟩)]
        rw [List.map_cons, apply_touches_cons]
        rw [show merge_todo_room td p.1 p.2.required_state p.2.timeline_limit
            ((known "subscriptions" p.1).getD 0) room =
          some (merge_entry ((td room).getD ([], 0, u64max))
            (p.2.required_state, p.2.timeline_limit,
              (known "subscriptions" room).getD 0)) from by
          rw [merge_todo_room_at, if_pos hp.symm, hp]]
      · rw [List.filter_cons_of_neg (by
          simp only [decide_eq_true_eq, Bool.not_eq_true]
          rintro ⟨he, -⟩
          exact absurd he hp)]
        rw [show merge_todo_room td p.1 p.2.required_state p.2.timeline_limit
            ((known "subscriptions" p.1).getD 0) room = td room from by
          rw [merge_todo_room_at, if_neg (fun h => hp h.symm)]]

theorem request_todo_at (room_type : RoomId → RoomTypeRes)
    (room_exists is_disabled is_banned : RoomId → Bool)
    (all_rooms all_invited_rooms all_joined_rooms : List RoomId)
    (known : KnownRooms) (lists : List (String × ListReq))
    (subs : List (RoomId × SubReq)) (room : RoomId) :
    request_todo room_type room_exists is_disabled is_banned all_rooms
      all_invited_rooms all_joined_rooms known lists subs room =
      apply_touches none
        (touches_of room_type room_exists is_disabled is_banned all_rooms
          all_invited_rooms all_joined_rooms known lists subs room) := by
  unfold request_todo touches_of handle_lists fetch_subscriptions
  rw [subs_fold_todo_at, lists_fold_todo_at, apply_touches_append]

theorem le_foldl_max : ∀ (l : List Nat) (a : Nat),
    a ≤ l.foldl max a ∧ ∀ x ∈ l, x ≤ l.foldl max a := by
  intro l
  induction l with
  | nil => intro a ; exact ⟨le_refl _, by simp⟩
  | cons b rest ih =>
    intro a
    obtain ⟨h1, h2⟩ := ih (max a b)
    refine ⟨le_trans (le_max_left a b) h1, ?_⟩
    intro x hx
    rcases List.mem_cons.mp hx with rfl | hx
    · exact le_trans (le_max_right a x) h1
    · exact h2 x hx

theorem foldl_max_mem : ∀ (l : List Nat) (a : Nat),
    l.foldl max a = a ∨ l.foldl max a ∈ l := by
  intro l
  induction l with
  | nil => intro a ; exact Or.inl rfl
  | cons b rest ih =>
    intro a
    rw [List.foldl_cons]
    rcases ih (max a b) with h | h
    · rcases max_choice a b with hm | hm
      · exact Or.inl (h.trans hm)
      · exact Or.inr (List.mem_cons.mpr (Or.inl (h.trans hm)))
    · exact Or.inr (List.mem_cons.mpr (Or.inr h))

theorem foldl_min_le : ∀ (l : List Nat) (a : Nat),
    l.foldl min a ≤ a ∧ ∀ x ∈ l, l.foldl min a ≤ x := by
  intro l
  induction l with
  | nil => intro a ; exact ⟨le_refl _, by simp⟩
  | cons b rest ih =>
    intro a
    obtain ⟨h1, h2⟩ := ih (min a b)
    refine ⟨le_trans h1 (min_le_left a b), ?_⟩
    intro x hx
    rcases List.mem_cons.mp hx with rfl | hx
    · exact le_trans h1 (min_le_right a x)
    · exact h2 x hx

theorem foldl_min_mem : ∀ (l : List Nat) (a : Nat),
    l.foldl min a = a ∨ l.foldl min a ∈ l := by
  intro l
  induction l with
  | nil => intro a ; exact Or.inl rfl
  | cons b rest ih =>
    intro a
    rw [List.foldl_cons]
    rcases ih (min a b) with h | h
    · rcases min_choice a b with hm | hm
      · exact Or.inl (h.trans hm)
      · exact Or.inr (List.mem_cons.mpr (Or.inl (h.trans hm)))
    · exact Or.inr (List.mem_cons.mpr (Or.inr h))

theorem foldl_max_attained (l : List Nat) (hne : l ≠ []) :
    l.foldl max 0 ∈ l := by
  rcases foldl_max_mem l 0 with h | h
  · obtain ⟨x, l', rfl⟩ := List.exists_cons_of_ne_nil hne
    have hx := (le_foldl_max (x :: l') 0).2 x (List.mem_cons_self _ _)
    rw [h] at hx
    have : x = 0 := Nat.le_zero.mp hx
    rw [h, ← this]
    exact List.mem_cons_self _ _
  · exact h

theorem foldl_min_attained (l : List Nat) (a : Nat) (hne : l ≠ [])
    (hb : ∀ x ∈ l, x ≤ a) : l.foldl min a ∈ l := by
  rcases foldl_min_mem l a with h | h
  · obtain ⟨x, l', rfl⟩ := List.exists_cons_of_ne_nil hne
    have hx := (foldl_min_le (x :: l') a).2 x (List.mem_cons_self _ _)
    have hxa := hb x (List.mem_cons_self _ _)
    rw [h] at hx
    have : x = a := le_antisymm hxa hx
    rw [h, ← this]
    exact List.mem_cons_self _ _
  · exact h

theorem apply_touches_some_char : ∀ (ts : List Touch) (e : TodoEntry),
    ∃ e', apply_touches (some e) ts = some e' ∧
      (∀ k, k ∈ e'.1 ↔ k ∈ e.1 ∨ ∃ t ∈ ts, k ∈ t.1) ∧
      e'.2.1 = (ts.map (fun t => t.2.1)).foldl max e.2.1 ∧
      e'.2.2 = (ts.map (fun t => t.2.2)).foldl min e.2.2 := by
  intro ts
  induction ts with
  | nil =>
    intro e
    exact ⟨e, rfl, by simp, rfl, rfl⟩
  | cons t rest ih =>
    intro e
    obtain ⟨e', h1, h2, h3, h4⟩ := ih (merge_entry e t)
    refine ⟨e', h1, ?_, ?_, ?_⟩
    · intro k
      rw [h2 k]
      simp only [merge_entry, mem_extendSet, List.mem_cons]
      constructor
      · rintro ((h | h) | ⟨t', hm, h⟩)
        · exact Or.inl h
        · exact Or.inr ⟨t, Or.inl rfl, h⟩
        · exact Or.inr ⟨t', Or.inr hm, h⟩
      · rintro (h | ⟨t', (rfl | hm), h⟩)
        · exact Or.inl (Or.inl h)
        · exact Or.inl (Or.inr h)
        · exact Or.inr ⟨t', hm, h⟩
    · rw [h3] ; rfl
    · rw [h4] ; rfl

theorem touches_of_watermark_le (room_type : RoomId → RoomTypeRes)
    (room_exists is_disabled is_banned : RoomId → Bool)
    (all_rooms all_invited_rooms all_joined_rooms : List RoomId)
    (known : KnownRooms) (lists : List (String × ListReq))
    (subs : List (RoomId × SubReq)) (room : RoomId)
    (hkb : ∀ lid r w, known lid r = some w → w ≤ u64max) :
    ∀ t ∈ touches_of room_type room_exists is_disabled is_banned all_rooms
      all_invited_rooms all_joined_rooms known lists subs room,
      t.2.2 ≤ u64max := by
  intro t ht
  unfold touches_of at ht
  rcases List.mem_append.mp ht with h | h
  · obtain ⟨p, hp, rfl⟩ := List.mem_map.mp h
    dsimp only
    cases hk : known p.1 room with
    | none => exact Nat.zero_le _
    | some w => exact hkb p.1 room w hk
  · obtain ⟨p, hp, rfl⟩ := List.mem_map.mp h
    dsimp only
    cases hk : known "subscriptions" room with
    | none => exact Nat.zero_le _
    | some w => exact hkb "subscriptions" room w hk

/-- C6 (amended): for every room, the request's to-do table entry is
shaped by the touches of the lists and subscriptions reaching it: absent
when nothing touches the room; otherwise the required-state set is the
union over all touches, the timeline limit is the maximum over the
touches' limits — where a list contributes its limit capped at 100 but a
room subscription contributes its limit uncapped — and the watermark is
the minimum over the touches' known watermarks, a missing entry in the
previous known-rooms table contributing 0.  (`hkb` records that stored
watermarks are `u64` values.) -/
theorem C6_todo_entry_union_max_min
    (room_type : RoomId → RoomTypeRes)
    (room_exists is_disabled is_banned : RoomId → Bool)
    (all_rooms all_invited_rooms all_joined_rooms : List RoomId)
    (known : KnownRooms) (lists : List (String × ListReq))
    (subs : List (RoomId × SubReq)) (room : RoomId)
    (hkb : ∀ lid r w, known lid r = some w → w ≤ u64max) :
    (touches_of room_type room_exists is_disabled is_banned all_rooms
        all_invited_rooms all_joined_rooms known lists subs room = [] →
      request_todo room_type room_exists is_disabled is_banned all_rooms
        all_invited_rooms all_joined_rooms known lists subs room = none) ∧
    (touches_of room_type room_exists is_disabled is_banned all_rooms
        all_invited_rooms all_joined_rooms known lists subs room ≠ [] →
      ∃ entry,
        request_todo room_type room_exists is_disabled is_banned all_rooms
          all_invited_rooms all_joined_rooms known lists subs room =
          some entry ∧
        (∀ k, k ∈ entry.1 ↔
          ∃ t ∈ touches_of room_type room_exists is_disabled is_banned
            all_rooms all_invited_rooms all_joined_rooms known lists subs
            room, k ∈ t.1) ∧
        (∀ t ∈ touches_of room_type room_exists is_disabled is_banned
            all_rooms all_invited_rooms all_joined_rooms known lists subs
            room, t.2.1 ≤ entry.2.1) ∧
        entry.2.1 ∈ (touches_of room_type room_exists is_disabled is_banned
          all_rooms all_invited_rooms all_joined_rooms known lists subs
          room).map (fun t => t.2.1) ∧
        (∀ t ∈ touches_of room_type room_exists is_disabled is_banned
            all_rooms all_invited_rooms all_joined_rooms known lists subs
            room, entry.2.2 ≤ t.2.2) ∧
        entry.2.2 ∈ (touches_of room_type room_exists is_disabled is_banned
          all_rooms all_invited_rooms all_joined_rooms known lists subs
          room).map (fun t => t.2.2)) := by
  have hwm := touches_of_watermark_le room_type room_exists is_disabled
    is_banned all_rooms all_invited_rooms all_joined_rooms known lists subs
    room hkb
  constructor
  · intro h0
    rw [request_todo_at, h0]
    rfl
  · intro hne
    obtain ⟨t0, ts', hts⟩ := List.exists_cons_of_ne_nil hne
    rw [request_todo_at, hts]
    rw [hts] at hwm
    obtain ⟨e', h1, h2, h3, h4⟩ := apply_touches_some_char ts'
      (merge_entry (Option.getD none ([], 0, u64max)) t0)
    have hmax : e'.2.1 = ((t0 :: ts').map (fun t => t.2.1)).foldl max 0 := by
      rw [h3] ; rfl
    have hmin : e'.2.2 = ((t0 :: ts').map (fun t => t.2.2)).foldl min u64max := by
      rw [h4] ; rfl
    have hbmap : ∀ x ∈ (t0 :: ts').map (fun t => t.2.2), x ≤ u64max := by
      intro x hx
      obtain ⟨t, ht, rfl⟩ := List.mem_map.mp hx
      exact hwm t ht
    refine ⟨e', h1, ?_, ?_, ?_, ?_, ?_⟩
    · intro k
      rw [h2 k]
      simp only [merge_entry, mem_extendSet, Option.getD_none,
        List.not_mem_nil, false_or, List.mem_cons]
      constructor
      · rintro (h | ⟨t', hm, h⟩)
        · exact ⟨t0, Or.inl rfl, h⟩
        · exact ⟨t', Or.inr hm, h⟩
      · rintro ⟨t', (rfl | hm), h⟩
        · exact Or.inl h
        · exact Or.inr ⟨t', hm, h⟩
    · intro t ht
      rw [hmax]
      exact (le_foldl_max _ 0).2 t.2.1 (List.mem_map_of_mem _ ht)
    · rw [hmax]
      exact foldl_max_attained _ (by simp)
    · intro t ht
      rw [hmin]
      exact (foldl_min_le _ u64max).2 t.2.2 (List.mem_map_of_mem _ ht)
    · rw [hmin]
      exact foldl_min_attained _ u64max (by simp) hbmap

/-- C6 witness: a room no list or subscription touches gets no to-do
entry; a room with a single subscription of limit 500 gets an entry
whose watermark is one of the touches' watermarks. -/
theorem C6_witness :
    request_todo (fun _ => .errNotFound) (fun _ => true) (fun _ => false)
      (fun _ => false) [] [] [] (fun _ _ => none) [] [] "!x" = none ∧
    ∃ entry,
      request_todo (fun _ => .errNotFound) (fun _ => true) (fun _ => false)
        (fun _ => false) [] [] [] (fun _ _ => none) []
        [("!r", { required_state := [], timeline_limit := 500 })] "!r" =
        some entry ∧
      entry.2.2 ∈ (touches_of (fun _ => .errNotFound) (fun _ => true)
        (fun _ => false) (fun _ => false) [] [] [] (fun _ _ => none) []
        [("!r", { required_state := [], timeline_limit := 500 })]
        "!r").map (fun t => t.2.2) := by
  constructor
  · exact (C6_todo_entry_union_max_min (fun _ => .errNotFound) (fun _ => true)
      (fun _ => false) (fun _ => false) [] [] [] (fun _ _ => none) [] [] "!x"
      (fun _ _ w h => nomatch h)).1 rfl
  · obtain ⟨e, h1, h2, h3, h4, h5, h6⟩ :=
      (C6_todo_entry_union_max_min (fun _ => .errNotFound) (fun _ => true)
        (fun _ => false) (fun _ => false) [] [] [] (fun _ _ => none) []
        [("!r", { required_state := [], timeline_limit := 500 })] "!r"
        (fun _ _ w h => nomatch h)).2 (by decide)
    exact ⟨e, h1, h6⟩
